import Mathlib

/-!
Verification of the SingleTreeDB point-cloud ingest and merge core.

Shallow embedding of:
* `src/singletree/ingest/lidar.py` — `import_campaign_tree_packs`, `_derive_tile_id`,
  `_update_bbox`, `_NullWriter` (modelled by omitting the residual output when disabled);
* `src/pointcloud/merge.py` — `merge_campaign_tree_packs`, `_update_bbox`.

Modelling conventions:
* A LAS/LAZ file is a `LasFile`: flags recording whether the configured semantic /
  instance dimensions are present in its point schema, an optional EPSG code, and the
  list of point chunks produced by laspy's `chunk_iterator` (the chunk partition of the
  file's points, in file order).
* Point coordinates and semantic codes are embedded as integers; the numeric instance
  value is a `NumVal` which is either an ordinary number or not-a-number, mirroring the
  two tests `inst <= 0` and `np.isnan(inst)` applied by the source.
* Filesystem writes are made explicit: an operation returns the list of
  (path, point content) pairs it created, paired with an `Except` value for its result.
  Directory creation (`os.makedirs`) has no observable effect in this model.
* Byte sizes, hashes and timestamps of output files are external to the classification
  logic (computed from the on-disk encoding) and are omitted from the asset records.
-/

/-- A numeric attribute value: an ordinary number or not-a-number.  Embeds the
floating-point instance values of the source; `nan` compares false under `<= 0`
exactly as NaN does in numpy. -/
inductive NumVal where
  | num (v : Int)
  | nan
deriving DecidableEq

/-- One point of a chunk: position plus the per-point attributes read by the importer.
The instance value field is meaningful only when the containing file's instance
dimension is present. -/
structure Point where
  x : Int
  y : Int
  z : Int
  sem : Int
  inst : NumVal
deriving DecidableEq

/-- One source LAS/LAZ file: schema-presence flags for the configured semantic and
instance dimensions, the optional EPSG code of its header, and its points partitioned
into the chunks yielded by laspy's chunk_iterator (an empty file yields no chunks). -/
structure LasFile where
  hasSemanticDim : Bool
  hasInstanceDim : Bool
  epsg : Option Int
  chunks : List (List Point)
deriving DecidableEq

/-- All points of a file, in file order. -/
def filePoints (f : LasFile) : List Point :=
  f.chunks.flatten

/-- Configuration of `import_campaign_tree_packs` (lidar.py lines 76-88).  The
dimension names themselves are abstracted into the per-file presence flags. -/
structure ImportConfig where
  ground_classes : List Int
  tree_classes : List Int
  include_residual : Bool
  output_root : String

/-- mask of raw tree points: `np.isin(sem, tree_codes)` (lidar.py line 187). -/
def raw_tree_mask (tree_codes : List Int) (p : Point) : Bool :=
  decide (p.sem ∈ tree_codes)

/-- mask of ground points: `np.isin(sem, ground_codes)` (lidar.py line 189). -/
def mask_ground (ground_codes : List Int) (p : Point) : Bool :=
  decide (p.sem ∈ ground_codes)

/-- `inst <= 0` on a numeric value; false on NaN, as for numpy floats. -/
def inst_le_zero : NumVal → Bool
  | NumVal.num v => decide (v ≤ 0)
  | NumVal.nan => false

/-- `np.isnan(inst)`. -/
def inst_is_nan : NumVal → Bool
  | NumVal.num _ => false
  | NumVal.nan => true

/-- Residual mask (lidar.py lines 191-199): when residual extraction is enabled, a
tree-class point whose instance value is invalid; when the instance dimension is
absent the whole raw tree mask is copied; when residual extraction is disabled the
mask is `None`, which selects nothing (modelled as the all-false mask). -/
def mask_residual (tree_codes : List Int) (hasInst includeRes : Bool) (p : Point) : Bool :=
  if includeRes then
    if hasInst then raw_tree_mask tree_codes p && (inst_le_zero p.inst || inst_is_nan p.inst)
    else raw_tree_mask tree_codes p
  else false

/-- Tree mask (lidar.py lines 187, 197): the raw tree mask, with residual points
removed when residual extraction is enabled. -/
def mask_tree (tree_codes : List Int) (hasInst includeRes : Bool) (p : Point) : Bool :=
  if includeRes then
    raw_tree_mask tree_codes p && !(mask_residual tree_codes hasInst includeRes p)
  else raw_tree_mask tree_codes p

/-- A point selected by none of the three masks; such a point is silently dropped. -/
def dropped_mask (ground_codes tree_codes : List Int) (hasInst includeRes : Bool)
    (p : Point) : Bool :=
  !(mask_tree tree_codes hasInst includeRes p) && !(mask_ground ground_codes p)
    && !(mask_residual tree_codes hasInst includeRes p)

/-- Per-chunk tree mask as the boolean vector over the chunk's point indices. -/
def chunk_mask_tree (tree_codes : List Int) (hasInst includeRes : Bool)
    (chunk : List Point) : List Bool :=
  chunk.map (mask_tree tree_codes hasInst includeRes)

/-- Per-chunk ground mask as the boolean vector over the chunk's point indices. -/
def chunk_mask_ground (ground_codes : List Int) (chunk : List Point) : List Bool :=
  chunk.map (mask_ground ground_codes)

/-- Per-chunk residual mask as the boolean vector over the chunk's point indices. -/
def chunk_mask_residual (tree_codes : List Int) (hasInst includeRes : Bool)
    (chunk : List Point) : List Bool :=
  chunk.map (mask_residual tree_codes hasInst includeRes)

/-- Modelled from the spec: the residual mask as the spec words it — raw tree mask
AND-ed with (instance attribute absent, OR instance value at most 0, OR instance value
not-a-number) when residual extraction is enabled, empty otherwise.  Refinement
target of claim C3; to be compared with `mask_residual` taken from the source. -/
def residual_mask_spec (tree_codes : List Int) (hasInst includeRes : Bool) (p : Point) : Bool :=
  if includeRes then
    raw_tree_mask tree_codes p && (!hasInst || inst_le_zero p.inst || inst_is_nan p.inst)
  else false

/-- Modelled from the spec: the tree mask as the spec words it — raw tree mask AND NOT
the residual mask when residual extraction is enabled, the raw tree mask otherwise.
Refinement target of claim C3. -/
def tree_mask_spec (tree_codes : List Int) (hasInst includeRes : Bool) (p : Point) : Bool :=
  if includeRes then
    raw_tree_mask tree_codes p && !(residual_mask_spec tree_codes hasInst includeRes p)
  else raw_tree_mask tree_codes p

/-- A 3-d coordinate triple. -/
abbrev Coord := Int × Int × Int

/-- An axis-aligned bounding box: (per-axis minima, per-axis maxima). -/
abbrev Bbox := Coord × Coord

/-- Minimum of a list of values, seeded with its head (the value of
`xs.min()` on a nonempty numpy array; the value on an empty list is never used by
the source, which guards every caller with a nonempty check). -/
def minList : List Int → Int
  | [] => 0
  | x :: xs => xs.foldl min x

/-- Maximum of a list of values, seeded with its head (`xs.max()`). -/
def maxList : List Int → Int
  | [] => 0
  | x :: xs => xs.foldl max x

/-- Per-axis minima of a chunk's coordinates (lidar.py line 308 / merge.py line 196). -/
def chunkMin (pts : List Point) : Coord :=
  (minList (pts.map Point.x), minList (pts.map Point.y), minList (pts.map Point.z))

/-- Per-axis maxima of a chunk's coordinates (lidar.py line 309 / merge.py line 197). -/
def chunkMax (pts : List Point) : Coord :=
  (maxList (pts.map Point.x), maxList (pts.map Point.y), maxList (pts.map Point.z))

/-- The running bounding-box update `_update_bbox` — identical in
lidar.py lines 295-320 and merge.py lines 186-207: the first update adopts the
chunk's own extent, every later update takes the elementwise minimum of minima and
maximum of maxima. -/
def _update_bbox (current_bbox : Option Bbox) (pts : List Point) : Option Bbox :=
  let cmin := chunkMin pts
  let cmax := chunkMax pts
  match current_bbox with
  | none => some (cmin, cmax)
  | some (mn, mx) =>
      some ((min mn.1 cmin.1, min mn.2.1 cmin.2.1, min mn.2.2 cmin.2.2),
            (max mx.1 cmax.1, max mx.2.1 cmax.2.1, max mx.2.2 cmax.2.2))

/-- The elementwise min/max bounding box over a list of point coordinates; `none`
for the empty list.  Reference value for the bounding-box correctness claims. -/
def bboxOfPoints (pts : List Point) : Option Bbox :=
  match pts with
  | [] => none
  | _ :: _ => some (chunkMin pts, chunkMax pts)

/-- Lexicographic (codepoint) order on character lists: the comparison Python's
`sorted` applies to filenames. -/
def charListLe : List Char → List Char → Bool
  | [], _ => true
  | _ :: _, [] => false
  | a :: as, b :: bs => if a = b then charListLe as bs else decide (a.toNat < b.toNat)

/-- Lexicographic string comparison. -/
def strLe (a b : String) : Bool :=
  charListLe a.data b.data

/-- `str.endswith(suffix)`: the trailing segment of `s` of the suffix's length
equals the suffix (false when `s` is shorter). -/
def strEndsWith (s suffix : String) : Bool :=
  decide (s.data.drop (s.data.length - suffix.data.length) = suffix.data)

/-- `str.startswith(pre)`: the leading segment of `s` of the prefix's length
equals the prefix. -/
def strStartsWith (s pre : String) : Bool :=
  decide (s.data.take pre.data.length = pre.data)

/-- `str.split(sep)` for a single-character separator: splits at every occurrence,
keeping empty parts; the empty string yields one empty part. -/
def splitOnChar (sep : Char) (l : List Char) : List (List Char) :=
  l.foldr
    (fun ch acc =>
      match acc with
      | cur :: rest => if ch = sep then [] :: cur :: rest else (ch :: cur) :: rest
      | [] => [[ch]])
    [[]]

/-- String version of `splitOnChar`. -/
def strSplitOn (sep : Char) (s : String) : List String :=
  (splitOnChar sep s.data).map (fun cs => String.mk cs)

/-- `str.lower()` (ASCII case folding as applied to these filenames). -/
def strToLower (s : String) : String :=
  String.mk (s.data.map Char.toLower)

/-- `os.path.basename`: the part after the last path separator. -/
def basename (p : String) : String :=
  (strSplitOn '/' p).getLastD p

/-- `os.path.splitext` on an ordinary file name: split at the last dot
(the stdlib's special case for names consisting only of leading dots is not
exercised by this repository's tile names). -/
def splitextAux : List Char → Option (List Char × List Char)
  | [] => none
  | c :: rest =>
    match splitextAux rest with
    | some (st, ex) => some (c :: st, ex)
    | none => if c = '.' then some ([], '.' :: rest) else none

/-- String version of `splitextAux`: (stem, extension). -/
def splitext (s : String) : String × String :=
  match splitextAux s.data with
  | some (st, ex) => (String.mk st, String.mk ex)
  | none => (s, "")

/-- Left-pad a numeral to four digits: Python's `f"{index:04d}"` for a
natural number. -/
def pad4 (n : Nat) : String :=
  let s := toString n
  String.mk (List.replicate (4 - s.length) '0') ++ s

/-- `_derive_tile_id` (lidar.py lines 55-73): use the file stem when any
underscore-separated token of its lowercase form starts with "tile", otherwise
a zero-padded index. -/
def _derive_tile_id (path : String) (index : Nat) : String :=
  let base := basename path
  let stem := (splitext base).1
  let parts := strSplitOn '_' (strToLower stem)
  if parts.any (fun part => strStartsWith part "tile") then stem
  else "tile_" ++ pad4 index

/-- Error taxonomy of the importer: FileNotFoundError and the configuration error
raised when a required dimension is absent from a file's point schema. -/
inductive ImportError where
  | notFound
  | configuration
deriving DecidableEq

/-- The asset-record fields populated by this core (lidar.py lines 224-272 /
merge.py lines 166-181).  Byte size, hash, creation timestamp and notes are
external values and are omitted (hash, created_at and notes are always None here). -/
structure AssetRecord where
  asset_uid : String
  campaign_uid : String
  tree_uid : Option String
  scope : String
  pc_role : String
  asset_type : String
  format : String
  uri : String
  crs_epsg : Option Int
  point_count : Nat
deriving DecidableEq

/-- Running per-role accumulators of one tile import: the points written to each
destination file so far, the `counts` dictionary and the `bboxes` dictionary
(lidar.py lines 173-179). -/
structure FileState where
  treePts : List Point
  groundPts : List Point
  residPts : List Point
  treeCount : Nat
  groundCount : Nat
  residCount : Nat
  treeBox : Option Bbox
  groundBox : Option Bbox
  residBox : Option Bbox
deriving DecidableEq

/-- The accumulators at the start of one file: no points written, zero counts,
no bounding boxes. -/
def initFileState : FileState :=
  { treePts := [], groundPts := [], residPts := [],
    treeCount := 0, groundCount := 0, residCount := 0,
    treeBox := none, groundBox := none, residBox := none }

/-- The tree-branch of the chunk loop (lidar.py lines 202-205): when the tree mask
selects at least one point, write the selected sub-chunk and update count and bbox. -/
def applyTree (cfg : ImportConfig) (hasInst : Bool) (chunk : List Point)
    (st : FileState) : FileState :=
  let tsel := chunk.filter (mask_tree cfg.tree_classes hasInst cfg.include_residual)
  if tsel.isEmpty then st
  else { st with treePts := st.treePts ++ tsel,
                 treeCount := st.treeCount + tsel.length,
                 treeBox := _update_bbox st.treeBox tsel }

/-- The ground-branch of the chunk loop (lidar.py lines 208-211). -/
def applyGround (cfg : ImportConfig) (chunk : List Point) (st : FileState) : FileState :=
  let gsel := chunk.filter (mask_ground cfg.ground_classes)
  if gsel.isEmpty then st
  else { st with groundPts := st.groundPts ++ gsel,
                 groundCount := st.groundCount + gsel.length,
                 groundBox := _update_bbox st.groundBox gsel }

/-- The residual-branch of the chunk loop (lidar.py lines 214-217), guarded by
`include_residual and mask_residual is not None and mask_residual.any()`. -/
def applyResidual (cfg : ImportConfig) (hasInst : Bool) (chunk : List Point)
    (st : FileState) : FileState :=
  let rsel := chunk.filter (mask_residual cfg.tree_classes hasInst cfg.include_residual)
  if cfg.include_residual && !rsel.isEmpty then
    { st with residPts := st.residPts ++ rsel,
              residCount := st.residCount + rsel.length,
              residBox := _update_bbox st.residBox rsel }
  else st

/-- One iteration of the chunk loop body after the masks are computed. -/
def stepChunk (cfg : ImportConfig) (hasInst : Bool) (chunk : List Point)
    (st : FileState) : FileState :=
  applyResidual cfg hasInst chunk (applyGround cfg chunk (applyTree cfg hasInst chunk st))

/-- The chunk loop (lidar.py lines 181-217).  Evaluating `points[semantic_dim]` on a
chunk of a file whose schema lacks the semantic dimension raises the configuration
error; the loop body never runs for a file with no chunks, so no error is raised
then.  Returns the accumulators reached together with the error, if any. -/
def processChunks (cfg : ImportConfig) (hasSem hasInst : Bool) :
    List (List Point) → FileState → FileState × Option ImportError
  | [], st => (st, none)
  | chunk :: rest, st =>
    if hasSem then processChunks cfg hasSem hasInst rest (stepChunk cfg hasInst chunk st)
    else (st, some ImportError.configuration)

/-- Destination path of one tile output file:
output_root/campaign/tiles/tile_role.laz (lidar.py lines 145, 155-157). -/
def tilePath (cfg : ImportConfig) (campaign_uid tile_id suffix : String) : String :=
  cfg.output_root ++ "/" ++ campaign_uid ++ "/tiles/" ++ tile_id ++ suffix

/-- The tree-pack asset record of one tile (lidar.py lines 224-239).  The uri is
`os.path.relpath` of the tile path from the output root. -/
def treeRecord (campaign_uid tile_id : String) (crs : Option Int) (count : Nat) :
    AssetRecord :=
  { asset_uid := "pc_" ++ campaign_uid ++ "_" ++ tile_id ++ "_tree_pack",
    campaign_uid := campaign_uid, tree_uid := none, scope := "tile",
    pc_role := "tree_pack", asset_type := "pointcloud", format := "LAZ",
    uri := campaign_uid ++ "/tiles/" ++ tile_id ++ "_tree_pack.laz",
    crs_epsg := crs, point_count := count }

/-- The ground-only asset record of one tile (lidar.py lines 240-255). -/
def groundRecord (campaign_uid tile_id : String) (crs : Option Int) (count : Nat) :
    AssetRecord :=
  { asset_uid := "pc_" ++ campaign_uid ++ "_" ++ tile_id ++ "_ground_only",
    campaign_uid := campaign_uid, tree_uid := none, scope := "tile",
    pc_role := "ground_only", asset_type := "pointcloud", format := "LAZ",
    uri := campaign_uid ++ "/tiles/" ++ tile_id ++ "_ground_only.laz",
    crs_epsg := crs, point_count := count }

/-- The residual asset record of one tile (lidar.py lines 256-272); note its
pc_role is "background_residual" while its file suffix and uid suffix are
"residual". -/
def residualRecord (campaign_uid tile_id : String) (crs : Option Int) (count : Nat) :
    AssetRecord :=
  { asset_uid := "pc_" ++ campaign_uid ++ "_" ++ tile_id ++ "_residual",
    campaign_uid := campaign_uid, tree_uid := none, scope := "tile",
    pc_role := "background_residual", asset_type := "pointcloud", format := "LAZ",
    uri := campaign_uid ++ "/tiles/" ++ tile_id ++ "_residual.laz",
    crs_epsg := crs, point_count := count }

/-- Processing of one input file (lidar.py lines 158-272): the tree and ground
writers are always opened (creating their destination files), the residual writer
only when residual extraction is enabled (otherwise the null writer creates
nothing); then the chunk loop runs and, on success, the asset records are built.
Returns (files created with their final point content, result). -/
def processFile (cfg : ImportConfig) (campaign_uid tile_id : String) (f : LasFile) :
    List (String × List Point) × Except ImportError (List AssetRecord) :=
  let r := processChunks cfg f.hasSemanticDim f.hasInstanceDim f.chunks initFileState
  let st := r.1
  let writes :=
    [(tilePath cfg campaign_uid tile_id "_tree_pack.laz", st.treePts),
     (tilePath cfg campaign_uid tile_id "_ground_only.laz", st.groundPts)]
    ++ (if cfg.include_residual then
          [(tilePath cfg campaign_uid tile_id "_residual.laz", st.residPts)] else [])
  match r.2 with
  | some e => (writes, Except.error e)
  | none =>
    (writes,
     Except.ok
       ([treeRecord campaign_uid tile_id f.epsg st.treeCount,
         groundRecord campaign_uid tile_id f.epsg st.groundCount]
        ++ (if cfg.include_residual then
              [residualRecord campaign_uid tile_id f.epsg st.residCount] else [])))

/-- The filesystem visible to the importer: a path resolves to a LAS/LAZ file or is
missing (`os.path.isfile` false). -/
def lookupFile (fs : List (String × LasFile)) (path : String) : Option LasFile :=
  match fs.find? (fun e => e.1 == path) with
  | some e => some e.2
  | none => none

/-- The loop over input paths (lidar.py lines 149-272), carrying the index used by
`_derive_tile_id`, the files created so far and the asset records accumulated so
far.  A missing path raises FileNotFoundError before anything is written for it. -/
def importLoop (fs : List (String × LasFile)) (cfg : ImportConfig)
    (campaign_uid : String) :
    Nat → List String → List (String × List Point) → List AssetRecord →
    List (String × List Point) × Except ImportError (List AssetRecord)
  | _, [], w, recs => (w, Except.ok recs)
  | i, p :: rest, w, recs =>
    match lookupFile fs p with
    | none => (w, Except.error ImportError.notFound)
    | some f =>
      match processFile cfg campaign_uid (_derive_tile_id p i) f with
      | (fw, Except.error e) => (w ++ fw, Except.error e)
      | (fw, Except.ok frecs) =>
        importLoop fs cfg campaign_uid (i + 1) rest (w ++ fw) (recs ++ frecs)

/-- `import_campaign_tree_packs` (lidar.py lines 76-274) over the explicit
filesystem `fs`: processes the input paths in order and returns the files created
together with the asset records, or the first error raised. -/
def import_campaign_tree_packs (fs : List (String × LasFile)) (cfg : ImportConfig)
    (campaign_uid : String) (input_paths : List String) :
    List (String × List Point) × Except ImportError (List AssetRecord) :=
  importLoop fs cfg campaign_uid 0 input_paths [] []

/-- One entry of a campaign's tiles directory: (filename, file). -/
abbrev DirEntry := String × LasFile

/-- Error taxonomy of the merge: FileNotFoundError for a missing tiles directory and
the ValueError (configuration error) raised when no tree pack file is found. -/
inductive MergeError where
  | notFound
  | configuration
deriving DecidableEq

/-- Result of a successful merge: the asset record, the merged output's point
sequence and the running bounding box (computed by the source but not recorded in
the asset record). -/
structure MergeResult where
  record : AssetRecord
  points : List Point
  bbox : Option Bbox
deriving DecidableEq

/-- Insert an entry into a name-sorted list, keeping it sorted. -/
def insertSorted (e : DirEntry) : List DirEntry → List DirEntry
  | [] => [e]
  | x :: xs => if strLe e.1 x.1 then e :: x :: xs else x :: insertSorted e xs

/-- `sorted(os.listdir(tiles_dir))`: the directory entries in lexicographic
filename order (insertion sort; Python's sorted is also stable). -/
def sortByName (l : List DirEntry) : List DirEntry :=
  l.foldr insertSorted []

/-- The role-suffix classification of the discovery loop (merge.py lines 108-114):
one pass over the sorted names, an if/elif chain per name; ground and residual
buckets are only populated when their flag is set. -/
def bucketFiles (include_ground include_residual : Bool) :
    List DirEntry → List DirEntry × List DirEntry × List DirEntry
  | [] => ([], [], [])
  | e :: rest =>
    let (t, g, r) := bucketFiles include_ground include_residual rest
    if strEndsWith e.1 "_tree_pack.laz" then (e :: t, g, r)
    else if include_ground && strEndsWith e.1 "_ground_only.laz" then (t, e :: g, r)
    else if include_residual && strEndsWith e.1 "_residual.laz" then (t, g, e :: r)
    else (t, g, r)

/-- Appending one chunk to the merged output (merge.py lines 145-148): write the
points, add to the running total, update the running bbox. -/
def mergeAppendChunk (st : List Point × Nat × Option Bbox) (chunk : List Point) :
    List Point × Nat × Option Bbox :=
  (st.1 ++ chunk, st.2.1 + chunk.length, _update_bbox st.2.2 chunk)

/-- Appending all chunks of one input file to the merged output. -/
def mergeAppendFile (st : List Point × Nat × Option Bbox) (f : LasFile) :
    List Point × Nat × Option Bbox :=
  f.chunks.foldl mergeAppendChunk st

/-- `append_files` (merge.py lines 141-148): appending a list of input files. -/
def mergeAppendFiles (files : List LasFile) (st : List Point × Nat × Option Bbox) :
    List Point × Nat × Option Bbox :=
  files.foldl mergeAppendFile st

/-- The body of the merge once at least one tree pack file is known to exist
(merge.py lines 119-183): output naming, streaming append of tree / ground /
residual files, and the merged asset record.  The crs argument is the EPSG code of
the first tree file's header. -/
def mergeBody (campaign_uid : String) (include_ground include_residual : Bool)
    (output_root : String) (out_filename : Option String)
    (tree_files ground_files residual_files : List DirEntry) (crs : Option Int) :
    List (String × List Point) × Except MergeError MergeResult :=
  let fname :=
    match out_filename with
    | some n => n
    | none =>
      campaign_uid ++ "_"
        ++ ("trees" ++ (if include_ground then "_ground" else "")
             ++ (if include_residual then "_residual" else ""))
        ++ ".laz"
  let merged_path := output_root ++ "/" ++ campaign_uid ++ "/merged/" ++ fname
  let st1 := mergeAppendFiles (tree_files.map Prod.snd) ([], 0, none)
  let st2 := if include_ground then mergeAppendFiles (ground_files.map Prod.snd) st1 else st1
  let st3 :=
    if include_residual then mergeAppendFiles (residual_files.map Prod.snd) st2 else st2
  let uid :=
    "pc_" ++ campaign_uid ++ "_merged" ++ (if include_ground then "_ground" else "")
      ++ (if include_residual then "_residual" else "")
  ([(merged_path, st3.1)],
   Except.ok
     { record :=
         { asset_uid := uid, campaign_uid := campaign_uid, tree_uid := none,
           scope := "campaign", pc_role := "merged", asset_type := "pointcloud",
           format := "LAZ", uri := campaign_uid ++ "/merged/" ++ fname,
           crs_epsg := crs, point_count := st3.2.1 },
       points := st3.1, bbox := st3.2.2 })

/-- `merge_campaign_tree_packs` (merge.py lines 40-183) over an explicit tiles
directory: `none` models a missing directory (`os.path.isdir` false), `some entries`
its listing.  Checks run in source order: directory existence, discovery and
bucketing of the sorted listing, the no-tree-pack check, and only then is the
output created. -/
def merge_campaign_tree_packs (tilesDir : Option (List DirEntry))
    (campaign_uid : String) (include_ground include_residual : Bool)
    (output_root : String) (out_filename : Option String) :
    List (String × List Point) × Except MergeError MergeResult :=
  match tilesDir with
  | none => ([], Except.error MergeError.notFound)
  | some entries =>
    let b := bucketFiles include_ground include_residual (sortByName entries)
    match b.1 with
    | [] => ([], Except.error MergeError.configuration)
    | first :: rest =>
      mergeBody campaign_uid include_ground include_residual output_root out_filename
        (first :: rest) b.2.1 b.2.2 first.2.epsg

/-- Modelled from the spec sentence on merge ordering: the concatenation of the
points of the tree-role files in lexicographic filename order, followed by the
ground-role files (when included) in lexicographic order, followed by the
residual-role files (when included) in lexicographic order.  Refinement target of
claim C4. -/
def mergedPointsSpec (entries : List DirEntry) (include_ground include_residual : Bool) :
    List Point :=
  let sortedEntries := sortByName entries
  ((sortedEntries.filter (fun e => strEndsWith e.1 "_tree_pack.laz")).map
      (fun e => filePoints e.2)).flatten
  ++ (if include_ground then
        ((sortedEntries.filter (fun e => strEndsWith e.1 "_ground_only.laz")).map
            (fun e => filePoints e.2)).flatten
      else [])
  ++ (if include_residual then
        ((sortedEntries.filter (fun e => strEndsWith e.1 "_residual.laz")).map
            (fun e => filePoints e.2)).flatten
      else [])

/-- The identity suffix used for a tile asset, given its recorded role: the file
suffix "residual" for the "background_residual" role, the role itself otherwise. -/
def fileRoleSuffix (role : String) : String :=
  if role = "background_residual" then "residual" else role

/-- Example configuration: the defaults of the source (ground class 1, tree
classes 2 and 3, residual extraction enabled). -/
def cfgEx : ImportConfig :=
  { ground_classes := [1], tree_classes := [2, 3], include_residual := true,
    output_root := "pointclouds/campaigns" }

/-- Example configuration with residual extraction disabled. -/
def cfgNoRes : ImportConfig :=
  { ground_classes := [1], tree_classes := [2, 3], include_residual := false,
    output_root := "pointclouds/campaigns" }

/-- A tree point with a valid instance id. -/
def pA : Point := { x := 0, y := 0, z := 0, sem := 2, inst := NumVal.num 5 }

/-- A ground point. -/
def pB : Point := { x := 1, y := 2, z := 3, sem := 1, inst := NumVal.num 1 }

/-- A tree-class point with an invalid (non-positive) instance id. -/
def pC : Point := { x := 2, y := 1, z := 0, sem := 3, inst := NumVal.num 0 }

/-- A point of a semantic class in neither configured set (dropped). -/
def pD : Point := { x := 5, y := 5, z := 5, sem := 9, inst := NumVal.num 1 }

/-- A well-formed input file with two chunks. -/
def goodFile : LasFile :=
  { hasSemanticDim := true, hasInstanceDim := true, epsg := some 25832,
    chunks := [[pA, pB], [pC, pD]] }

/-- A file none of whose points matches any mask. -/
def noMatchFile : LasFile :=
  { hasSemanticDim := true, hasInstanceDim := true, epsg := none,
    chunks := [[pD]] }

/-- An empty file (no points, hence no chunks) whose schema lacks the semantic
dimension. -/
def emptyNoSemFile : LasFile :=
  { hasSemanticDim := false, hasInstanceDim := false, epsg := none, chunks := [] }

/-- A non-empty file whose schema lacks the semantic dimension. -/
def noSemFile : LasFile :=
  { hasSemanticDim := false, hasInstanceDim := false, epsg := none, chunks := [[pA]] }

/-- Example filesystem for the importer. -/
def fsEx : List (String × LasFile) :=
  [("good.laz", goodFile), ("empty.laz", emptyNoSemFile), ("nosem.laz", noSemFile)]

/-- Example tiles directory listing for the merge, deliberately out of
lexicographic order. -/
def entriesEx : List DirEntry :=
  [("b_tree_pack.laz", { hasSemanticDim := true, hasInstanceDim := true,
                         epsg := some 25832, chunks := [[pB], [pC]] }),
   ("a_tree_pack.laz", { hasSemanticDim := true, hasInstanceDim := true,
                         epsg := some 25832, chunks := [[pA]] }),
   ("a_ground_only.laz", { hasSemanticDim := true, hasInstanceDim := true,
                           epsg := some 25832, chunks := [[pD]] })]

lemma mask_tree_raw (tc : List Int) (hI iR : Bool) (p : Point)
    (h : mask_tree tc hI iR p = true) : raw_tree_mask tc p = true := by
  cases iR with
  | false => simpa [mask_tree] using h
  | true =>
    simp only [mask_tree, if_true, Bool.and_eq_true] at h
    exact h.1

lemma mask_residual_raw (tc : List Int) (hI iR : Bool) (p : Point)
    (h : mask_residual tc hI iR p = true) : raw_tree_mask tc p = true := by
  cases iR with
  | false => simp [mask_residual] at h
  | true =>
    cases hI with
    | false => simpa [mask_residual] using h
    | true =>
      simp only [mask_residual, if_true, Bool.and_eq_true] at h
      exact h.1

lemma tree_ground_pointwise (gc tc : List Int) (hdisj : ∀ c ∈ gc, c ∉ tc)
    (hI iR : Bool) (p : Point) :
    (mask_tree tc hI iR p && mask_ground gc p) = false := by
  cases ht : mask_tree tc hI iR p
  · simp
  · have hraw := mask_tree_raw tc hI iR p ht
    have hsem : p.sem ∈ tc := by simpa [raw_tree_mask] using hraw
    have hng : p.sem ∉ gc := fun hg => hdisj p.sem hg hsem
    simp [mask_ground, hng]

lemma tree_residual_pointwise (tc : List Int) (hI iR : Bool) (p : Point) :
    (mask_tree tc hI iR p && mask_residual tc hI iR p) = false := by
  cases iR with
  | false => simp [mask_residual]
  | true =>
    cases hres : mask_residual tc hI true p
    · simp
    · simp [mask_tree, hres]

lemma ground_residual_pointwise (gc tc : List Int) (hdisj : ∀ c ∈ gc, c ∉ tc)
    (hI iR : Bool) (p : Point) :
    (mask_ground gc p && mask_residual tc hI iR p) = false := by
  cases hres : mask_residual tc hI iR p
  · simp
  · have hraw := mask_residual_raw tc hI iR p hres
    have hsem : p.sem ∈ tc := by simpa [raw_tree_mask] using hraw
    have hng : p.sem ∉ gc := fun hg => hdisj p.sem hg hsem
    simp [mask_ground, hng]

lemma zipWith_and_of_pointwise (f g : Point → Bool) (h : ∀ p, (f p && g p) = false) :
    ∀ l : List Point,
      List.zipWith (fun a b => a && b) (l.map f) (l.map g)
        = List.replicate l.length false
  | [] => rfl
  | p :: l => by
    simp only [List.map_cons, List.zipWith_cons_cons, List.length_cons,
      List.replicate_succ, h p]
    exact congrArg _ (zipWith_and_of_pointwise f g h l)

/-- C1: for every chunk, assuming the configured ground-class set and tree-class
set are disjoint, the three classification masks computed by the tile importer are
pairwise disjoint — no point index is selected by more than one of them — both when
residual extraction is enabled and when it is disabled. -/
theorem C1_masks_pairwise_disjoint (gc tc : List Int) (hdisj : ∀ c ∈ gc, c ∉ tc)
    (hasInst includeRes : Bool) (chunk : List Point) :
    List.zipWith (fun a b => a && b) (chunk_mask_tree tc hasInst includeRes chunk)
        (chunk_mask_ground gc chunk) = List.replicate chunk.length false
    ∧ List.zipWith (fun a b => a && b) (chunk_mask_tree tc hasInst includeRes chunk)
        (chunk_mask_residual tc hasInst includeRes chunk)
        = List.replicate chunk.length false
    ∧ List.zipWith (fun a b => a && b) (chunk_mask_ground gc chunk)
        (chunk_mask_residual tc hasInst includeRes chunk)
        = List.replicate chunk.length false :=
  ⟨zipWith_and_of_pointwise _ _ (tree_ground_pointwise gc tc hdisj hasInst includeRes) chunk,
   zipWith_and_of_pointwise _ _ (tree_residual_pointwise tc hasInst includeRes) chunk,
   zipWith_and_of_pointwise _ _ (ground_residual_pointwise gc tc hdisj hasInst includeRes) chunk⟩

/-- Witness for C1 at the default class sets and a concrete two-point chunk. -/
theorem C1_masks_pairwise_disjoint_witness :
    (∀ c ∈ ([1] : List Int), c ∉ ([2, 3] : List Int))
    ∧ (List.zipWith (fun a b => a && b) (chunk_mask_tree [2, 3] true true [pA, pB])
          (chunk_mask_ground [1] [pA, pB]) = List.replicate [pA, pB].length false
      ∧ List.zipWith (fun a b => a && b) (chunk_mask_tree [2, 3] true true [pA, pB])
          (chunk_mask_residual [2, 3] true true [pA, pB])
          = List.replicate [pA, pB].length false
      ∧ List.zipWith (fun a b => a && b) (chunk_mask_ground [1] [pA, pB])
          (chunk_mask_residual [2, 3] true true [pA, pB])
          = List.replicate [pA, pB].length false) :=
  ⟨by decide, C1_masks_pairwise_disjoint [1] [2, 3] (by decide) true true [pA, pB]⟩

/-- C3: the residual mask computed by the importer equals the spec's formula (raw
tree mask AND (instance absent OR value at most zero OR value NaN)) and the tree
mask equals raw tree mask AND NOT residual mask when residual extraction is
enabled; when disabled the residual mask selects nothing and the tree mask is the
raw tree mask. -/
theorem C3_mask_formulas (tc : List Int) (hasInst includeRes : Bool) (p : Point) :
    mask_residual tc hasInst includeRes p = residual_mask_spec tc hasInst includeRes p
    ∧ mask_tree tc hasInst includeRes p = tree_mask_spec tc hasInst includeRes p
    ∧ mask_residual tc hasInst false p = false
    ∧ mask_tree tc hasInst false p = raw_tree_mask tc p := by
  have hres : ∀ b : Bool, mask_residual tc hasInst b p = residual_mask_spec tc hasInst b p := by
    intro b
    cases b with
    | false => rfl
    | true =>
      cases hasInst with
      | false => simp [mask_residual, residual_mask_spec]
      | true => simp [mask_residual, residual_mask_spec]
  refine ⟨hres includeRes, ?_, rfl, rfl⟩
  cases includeRes with
  | false => rfl
  | true => simp [mask_tree, tree_mask_spec, hres true]

lemma length_filter_partition (t g r d : Point → Bool)
    (hd : ∀ p, d p = (!t p && !g p && !r p))
    (htg : ∀ p, (t p && g p) = false) (htr : ∀ p, (t p && r p) = false)
    (hgr : ∀ p, (g p && r p) = false) :
    ∀ l : List Point,
      (l.filter t).length + (l.filter g).length + (l.filter r).length
        + (l.filter d).length = l.length := by
  intro l
  induction l with
  | nil => simp
  | cons p l ih =>
    have h1 := htg p
    have h2 := htr p
    have h3 := hgr p
    have h4 := hd p
    simp only [List.filter_cons, h4, List.length_cons]
    cases ht : t p <;> cases hg : g p <;> cases hr : r p <;>
      simp only [ht, hg, hr, Bool.true_and, Bool.false_and, Bool.and_true,
        Bool.and_false, Bool.not_true, Bool.not_false] at h1 h2 h3 <;>
      [skip; skip; skip; exact absurd h3 (by decide);
       skip; exact absurd h2 (by decide); exact absurd h1 (by decide);
       exact absurd h1 (by decide)] <;>
      simp <;> omega

lemma filter_mask_residual_disabled (tc : List Int) (hI : Bool) (c : List Point) :
    c.filter (mask_residual tc hI false) = [] := by
  induction c with
  | nil => rfl
  | cons p c ih => simp [List.filter_cons, mask_residual, ih]

lemma applyTree_eq (cfg : ImportConfig) (hI : Bool) (chunk : List Point) (st : FileState) :
    applyTree cfg hI chunk st =
      { st with
        treePts := st.treePts
          ++ chunk.filter (mask_tree cfg.tree_classes hI cfg.include_residual),
        treeCount := st.treeCount
          + (chunk.filter (mask_tree cfg.tree_classes hI cfg.include_residual)).length,
        treeBox :=
          if (chunk.filter (mask_tree cfg.tree_classes hI cfg.include_residual)).isEmpty
          then st.treeBox
          else _update_bbox st.treeBox
            (chunk.filter (mask_tree cfg.tree_classes hI cfg.include_residual)) } := by
  unfold applyTree
  by_cases h : (chunk.filter (mask_tree cfg.tree_classes hI cfg.include_residual)).isEmpty
  · have hnil := List.isEmpty_iff.mp h
    simp [h, hnil]
  · simp [h]

lemma applyGround_eq (cfg : ImportConfig) (chunk : List Point) (st : FileState) :
    applyGround cfg chunk st =
      { st with
        groundPts := st.groundPts ++ chunk.filter (mask_ground cfg.ground_classes),
        groundCount := st.groundCount
          + (chunk.filter (mask_ground cfg.ground_classes)).length,
        groundBox :=
          if (chunk.filter (mask_ground cfg.ground_classes)).isEmpty
          then st.groundBox
          else _update_bbox st.groundBox (chunk.filter (mask_ground cfg.ground_classes)) } := by
  unfold applyGround
  by_cases h : (chunk.filter (mask_ground cfg.ground_classes)).isEmpty
  · have hnil := List.isEmpty_iff.mp h
    simp [h, hnil]
  · simp [h]

lemma applyResidual_eq (cfg : ImportConfig) (hI : Bool) (chunk : List Point) (st : FileState) :
    applyResidual cfg hI chunk st =
      { st with
        residPts := st.residPts
          ++ chunk.filter (mask_residual cfg.tree_classes hI cfg.include_residual),
        residCount := st.residCount
          + (chunk.filter (mask_residual cfg.tree_classes hI cfg.include_residual)).length,
        residBox :=
          if cfg.include_residual
              && !(chunk.filter
                    (mask_residual cfg.tree_classes hI cfg.include_residual)).isEmpty
          then _update_bbox st.residBox
            (chunk.filter (mask_residual cfg.tree_classes hI cfg.include_residual))
          else st.residBox } := by
  unfold applyResidual
  cases hres : cfg.include_residual
  · simp [filter_mask_residual_disabled]
  · by_cases h : (chunk.filter (mask_residual cfg.tree_classes hI cfg.include_residual)).isEmpty
    · have hnil := List.isEmpty_iff.mp h
      rw [hres] at hnil
      simp [hres, hnil]
    · have hfalse :
          (chunk.filter (mask_residual cfg.tree_classes hI true)).isEmpty = false := by
        rw [hres] at h
        revert h
        cases (chunk.filter (mask_residual cfg.tree_classes hI true)).isEmpty <;> simp
      simp [hres, hfalse]

lemma stepChunk_treePts (cfg : ImportConfig) (hI : Bool) (c : List Point) (st : FileState) :
    (stepChunk cfg hI c st).treePts
      = st.treePts ++ c.filter (mask_tree cfg.tree_classes hI cfg.include_residual) := by
  simp [stepChunk, applyResidual_eq, applyGround_eq, applyTree_eq]

lemma stepChunk_groundPts (cfg : ImportConfig) (hI : Bool) (c : List Point) (st : FileState) :
    (stepChunk cfg hI c st).groundPts
      = st.groundPts ++ c.filter (mask_ground cfg.ground_classes) := by
  simp [stepChunk, applyResidual_eq, applyGround_eq, applyTree_eq]

lemma stepChunk_residPts (cfg : ImportConfig) (hI : Bool) (c : List Point) (st : FileState) :
    (stepChunk cfg hI c st).residPts
      = st.residPts ++ c.filter (mask_residual cfg.tree_classes hI cfg.include_residual) := by
  simp [stepChunk, applyResidual_eq, applyGround_eq, applyTree_eq]

lemma stepChunk_treeCount (cfg : ImportConfig) (hI : Bool) (c : List Point) (st : FileState) :
    (stepChunk cfg hI c st).treeCount
      = st.treeCount + (c.filter (mask_tree cfg.tree_classes hI cfg.include_residual)).length := by
  simp [stepChunk, applyResidual_eq, applyGround_eq, applyTree_eq]

lemma stepChunk_groundCount (cfg : ImportConfig) (hI : Bool) (c : List Point) (st : FileState) :
    (stepChunk cfg hI c st).groundCount
      = st.groundCount + (c.filter (mask_ground cfg.ground_classes)).length := by
  simp [stepChunk, applyResidual_eq, applyGround_eq, applyTree_eq]

lemma stepChunk_residCount (cfg : ImportConfig) (hI : Bool) (c : List Point) (st : FileState) :
    (stepChunk cfg hI c st).residCount
      = st.residCount
        + (c.filter (mask_residual cfg.tree_classes hI cfg.include_residual)).length := by
  simp [stepChunk, applyResidual_eq, applyGround_eq, applyTree_eq]

lemma stepChunk_treeBox (cfg : ImportConfig) (hI : Bool) (c : List Point) (st : FileState) :
    (stepChunk cfg hI c st).treeBox
      = if (c.filter (mask_tree cfg.tree_classes hI cfg.include_residual)).isEmpty
        then st.treeBox
        else _update_bbox st.treeBox
          (c.filter (mask_tree cfg.tree_classes hI cfg.include_residual)) := by
  simp [stepChunk, applyResidual_eq, applyGround_eq, applyTree_eq]

lemma stepChunk_groundBox (cfg : ImportConfig) (hI : Bool) (c : List Point) (st : FileState) :
    (stepChunk cfg hI c st).groundBox
      = if (c.filter (mask_ground cfg.ground_classes)).isEmpty
        then st.groundBox
        else _update_bbox st.groundBox (c.filter (mask_ground cfg.ground_classes)) := by
  simp [stepChunk, applyResidual_eq, applyGround_eq, applyTree_eq]

lemma stepChunk_residBox (cfg : ImportConfig) (hI : Bool) (c : List Point) (st : FileState) :
    (stepChunk cfg hI c st).residBox
      = if cfg.include_residual
            && !(c.filter (mask_residual cfg.tree_classes hI cfg.include_residual)).isEmpty
        then _update_bbox st.residBox
          (c.filter (mask_residual cfg.tree_classes hI cfg.include_residual))
        else st.residBox := by
  simp [stepChunk, applyResidual_eq, applyGround_eq, applyTree_eq]

lemma processChunks_err (cfg : ImportConfig) (hI : Bool) :
    ∀ (chunks : List (List Point)) (st : FileState),
      (processChunks cfg true hI chunks st).2 = none := by
  intro chunks
  induction chunks with
  | nil => intro st; rfl
  | cons c rest ih =>
    intro st
    simpa [processChunks] using ih (stepChunk cfg hI c st)

lemma processChunks_treePts (cfg : ImportConfig) (hI : Bool) :
    ∀ (chunks : List (List Point)) (st : FileState),
      (processChunks cfg true hI chunks st).1.treePts
        = st.treePts
          ++ chunks.flatten.filter (mask_tree cfg.tree_classes hI cfg.include_residual) := by
  intro chunks
  induction chunks with
  | nil => intro st; simp [processChunks]
  | cons c rest ih =>
    intro st
    simp [processChunks, ih (stepChunk cfg hI c st), stepChunk_treePts,
      List.filter_append]

lemma processChunks_groundPts (cfg : ImportConfig) (hI : Bool) :
    ∀ (chunks : List (List Point)) (st : FileState),
      (processChunks cfg true hI chunks st).1.groundPts
        = st.groundPts ++ chunks.flatten.filter (mask_ground cfg.ground_classes) := by
  intro chunks
  induction chunks with
  | nil => intro st; simp [processChunks]
  | cons c rest ih =>
    intro st
    simp [processChunks, ih (stepChunk cfg hI c st), stepChunk_groundPts,
      List.filter_append]

lemma processChunks_residPts (cfg : ImportConfig) (hI : Bool) :
    ∀ (chunks : List (List Point)) (st : FileState),
      (processChunks cfg true hI chunks st).1.residPts
        = st.residPts
          ++ chunks.flatten.filter
              (mask_residual cfg.tree_classes hI cfg.include_residual) := by
  intro chunks
  induction chunks with
  | nil => intro st; simp [processChunks]
  | cons c rest ih =>
    intro st
    simp [processChunks, ih (stepChunk cfg hI c st), stepChunk_residPts,
      List.filter_append]

lemma processChunks_treeCount (cfg : ImportConfig) (hI : Bool) :
    ∀ (chunks : List (List Point)) (st : FileState),
      (processChunks cfg true hI chunks st).1.treeCount
        = st.treeCount
          + (chunks.flatten.filter
              (mask_tree cfg.tree_classes hI cfg.include_residual)).length := by
  intro chunks
  induction chunks with
  | nil => intro st; simp [processChunks]
  | cons c rest ih =>
    intro st
    simp [processChunks, ih (stepChunk cfg hI c st), stepChunk_treeCount,
      List.filter_append]
    omega

lemma processChunks_groundCount (cfg : ImportConfig) (hI : Bool) :
    ∀ (chunks : List (List Point)) (st : FileState),
      (processChunks cfg true hI chunks st).1.groundCount
        = st.groundCount
          + (chunks.flatten.filter (mask_ground cfg.ground_classes)).length := by
  intro chunks
  induction chunks with
  | nil => intro st; simp [processChunks]
  | cons c rest ih =>
    intro st
    simp [processChunks, ih (stepChunk cfg hI c st), stepChunk_groundCount,
      List.filter_append]
    omega

lemma processChunks_residCount (cfg : ImportConfig) (hI : Bool) :
    ∀ (chunks : List (List Point)) (st : FileState),
      (processChunks cfg true hI chunks st).1.residCount
        = st.residCount
          + (chunks.flatten.filter
              (mask_residual cfg.tree_classes hI cfg.include_residual)).length := by
  intro chunks
  induction chunks with
  | nil => intro st; simp [processChunks]
  | cons c rest ih =>
    intro st
    simp [processChunks, ih (stepChunk cfg hI c st), stepChunk_residCount,
      List.filter_append]
    omega

/-- C2: conservation — for a processed tile with disjoint configured ground and tree
class sets, the accumulated counts satisfy
count(tree) + count(ground) + count(residual) + count(dropped) = total input points. -/
theorem C2_conservation (cfg : ImportConfig)
    (hdisj : ∀ c ∈ cfg.ground_classes, c ∉ cfg.tree_classes)
    (f : LasFile) (hsem : f.hasSemanticDim = true) :
    (processChunks cfg f.hasSemanticDim f.hasInstanceDim f.chunks initFileState).1.treeCount
      + (processChunks cfg f.hasSemanticDim f.hasInstanceDim f.chunks
          initFileState).1.groundCount
      + (processChunks cfg f.hasSemanticDim f.hasInstanceDim f.chunks
          initFileState).1.residCount
      + ((filePoints f).filter
          (dropped_mask cfg.ground_classes cfg.tree_classes f.hasInstanceDim
            cfg.include_residual)).length
      = (filePoints f).length := by
  rw [hsem]
  rw [processChunks_treeCount, processChunks_groundCount, processChunks_residCount]
  simp only [initFileState, Nat.zero_add, filePoints]
  exact length_filter_partition
    (mask_tree cfg.tree_classes f.hasInstanceDim cfg.include_residual)
    (mask_ground cfg.ground_classes)
    (mask_residual cfg.tree_classes f.hasInstanceDim cfg.include_residual)
    (dropped_mask cfg.ground_classes cfg.tree_classes f.hasInstanceDim
      cfg.include_residual)
    (fun p => rfl)
    (fun p => tree_ground_pointwise cfg.ground_classes cfg.tree_classes hdisj
      f.hasInstanceDim cfg.include_residual p)
    (fun p => tree_residual_pointwise cfg.tree_classes f.hasInstanceDim
      cfg.include_residual p)
    (fun p => ground_residual_pointwise cfg.ground_classes cfg.tree_classes hdisj
      f.hasInstanceDim cfg.include_residual p)
    f.chunks.flatten

/-- Witness for C2 at the default configuration and a concrete four-point file. -/
theorem C2_conservation_witness :
    (∀ c ∈ cfgEx.ground_classes, c ∉ cfgEx.tree_classes)
    ∧ goodFile.hasSemanticDim = true
    ∧ ((processChunks cfgEx goodFile.hasSemanticDim goodFile.hasInstanceDim
          goodFile.chunks initFileState).1.treeCount
        + (processChunks cfgEx goodFile.hasSemanticDim goodFile.hasInstanceDim
            goodFile.chunks initFileState).1.groundCount
        + (processChunks cfgEx goodFile.hasSemanticDim goodFile.hasInstanceDim
            goodFile.chunks initFileState).1.residCount
        + ((filePoints goodFile).filter
            (dropped_mask cfgEx.ground_classes cfgEx.tree_classes
              goodFile.hasInstanceDim cfgEx.include_residual)).length
        = (filePoints goodFile).length) :=
  ⟨by decide, rfl, C2_conservation cfgEx (by decide) goodFile rfl⟩

lemma foldl_min_assoc (l : List Int) :
    ∀ a b : Int, List.foldl min (min a b) l = min a (List.foldl min b l) := by
  induction l with
  | nil => intro a b; rfl
  | cons x xs ih =>
    intro a b
    simp only [List.foldl_cons]
    rw [min_assoc]
    exact ih a (min b x)

lemma foldl_max_assoc (l : List Int) :
    ∀ a b : Int, List.foldl max (max a b) l = max a (List.foldl max b l) := by
  induction l with
  | nil => intro a b; rfl
  | cons x xs ih =>
    intro a b
    simp only [List.foldl_cons]
    rw [max_assoc]
    exact ih a (max b x)

lemma minList_append (l1 l2 : List Int) (h1 : l1 ≠ []) (h2 : l2 ≠ []) :
    minList (l1 ++ l2) = min (minList l1) (minList l2) := by
  match l1, l2 with
  | x :: xs, y :: ys =>
    simp only [minList, List.cons_append, List.foldl_append, List.foldl_cons]
    exact foldl_min_assoc ys (List.foldl min x xs) y

lemma maxList_append (l1 l2 : List Int) (h1 : l1 ≠ []) (h2 : l2 ≠ []) :
    maxList (l1 ++ l2) = max (maxList l1) (maxList l2) := by
  match l1, l2 with
  | x :: xs, y :: ys =>
    simp only [maxList, List.cons_append, List.foldl_append, List.foldl_cons]
    exact foldl_max_assoc ys (List.foldl max x xs) y

lemma bbox_append (pts sel : List Point) (hsel : sel ≠ []) :
    _update_bbox (bboxOfPoints pts) sel = bboxOfPoints (pts ++ sel) := by
  match pts with
  | [] => 
    match sel, hsel with
    | s :: sel', _ => rfl
  | p :: pts' =>
    match sel, hsel with
    | s :: sel', _ =>
      have hp : (p :: pts') ≠ [] := by simp
      have hs : (s :: sel') ≠ [] := by simp
      have hmx : ∀ (pr : Point → Int),
          ((p :: pts').map pr) ≠ [] ∧ ((s :: sel').map pr) ≠ [] := by
        intro pr; constructor <;> simp
      show some _ = bboxOfPoints ((p :: pts') ++ (s :: sel'))
      simp only [bboxOfPoints, List.cons_append]
      refine congrArg some (Prod.ext ?_ ?_)
      · show (min _ _, min _ _, min _ _) = chunkMin ((p :: pts') ++ (s :: sel'))
        simp only [chunkMin, List.map_append]
        rw [minList_append _ _ (hmx Point.x).1 (hmx Point.x).2,
          minList_append _ _ (hmx Point.y).1 (hmx Point.y).2,
          minList_append _ _ (hmx Point.z).1 (hmx Point.z).2]
      · show (max _ _, max _ _, max _ _) = chunkMax ((p :: pts') ++ (s :: sel'))
        simp only [chunkMax, List.map_append]
        rw [maxList_append _ _ (hmx Point.x).1 (hmx Point.x).2,
          maxList_append _ _ (hmx Point.y).1 (hmx Point.y).2,
          maxList_append _ _ (hmx Point.z).1 (hmx Point.z).2]

lemma foldl_update_bbox :
    ∀ (chunks : List (List Point)), (∀ c ∈ chunks, c ≠ []) →
      ∀ pts : List Point,
        List.foldl _update_bbox (bboxOfPoints pts) chunks
          = bboxOfPoints (pts ++ chunks.flatten) := by
  intro chunks
  induction chunks with
  | nil => intro _ pts; simp
  | cons c rest ih =>
    intro hall pts
    have hc : c ≠ [] := hall c (by simp)
    have hrest : ∀ d ∈ rest, d ≠ [] := fun d hd => hall d (by simp [hd])
    simp only [List.foldl_cons, List.flatten_cons]
    rw [bbox_append pts c hc, ih hrest (pts ++ c), List.append_assoc]

lemma processChunks_treeBox (cfg : ImportConfig) (hI : Bool) :
    ∀ (chunks : List (List Point)) (st : FileState),
      st.treeBox = bboxOfPoints st.treePts →
      (processChunks cfg true hI chunks st).1.treeBox
        = bboxOfPoints (processChunks cfg true hI chunks st).1.treePts := by
  intro chunks
  induction chunks with
  | nil => intro st hinv; simpa [processChunks] using hinv
  | cons c rest ih =>
    intro st hinv
    have hstep : (stepChunk cfg hI c st).treeBox
        = bboxOfPoints (stepChunk cfg hI c st).treePts := by
      rw [stepChunk_treeBox, stepChunk_treePts]
      by_cases h : (c.filter (mask_tree cfg.tree_classes hI cfg.include_residual)).isEmpty
      · have hnil := List.isEmpty_iff.mp h
        simp [h, hnil, hinv]
      · have hne : c.filter (mask_tree cfg.tree_classes hI cfg.include_residual) ≠ [] := by
          intro hx; exact h (by simp [hx])
        simp only [h, if_false, hinv]
        exact bbox_append _ _ hne
    simpa [processChunks] using ih (stepChunk cfg hI c st) hstep

lemma processChunks_groundBox (cfg : ImportConfig) (hI : Bool) :
    ∀ (chunks : List (List Point)) (st : FileState),
      st.groundBox = bboxOfPoints st.groundPts →
      (processChunks cfg true hI chunks st).1.groundBox
        = bboxOfPoints (processChunks cfg true hI chunks st).1.groundPts := by
  intro chunks
  induction chunks with
  | nil => intro st hinv; simpa [processChunks] using hinv
  | cons c rest ih =>
    intro st hinv
    have hstep : (stepChunk cfg hI c st).groundBox
        = bboxOfPoints (stepChunk cfg hI c st).groundPts := by
      rw [stepChunk_groundBox, stepChunk_groundPts]
      by_cases h : (c.filter (mask_ground cfg.ground_classes)).isEmpty
      · have hnil := List.isEmpty_iff.mp h
        simp [h, hnil, hinv]
      · have hne : c.filter (mask_ground cfg.ground_classes) ≠ [] := by
          intro hx; exact h (by simp [hx])
        simp only [h, if_false, hinv]
        exact bbox_append _ _ hne
    simpa [processChunks] using ih (stepChunk cfg hI c st) hstep

lemma processChunks_residBox (cfg : ImportConfig) (hI : Bool) :
    ∀ (chunks : List (List Point)) (st : FileState),
      st.residBox = bboxOfPoints st.residPts →
      (processChunks cfg true hI chunks st).1.residBox
        = bboxOfPoints (processChunks cfg true hI chunks st).1.residPts := by
  intro chunks
  induction chunks with
  | nil => intro st hinv; simpa [processChunks] using hinv
  | cons c rest ih =>
    intro st hinv
    have hstep : (stepChunk cfg hI c st).residBox
        = bboxOfPoints (stepChunk cfg hI c st).residPts := by
      rw [stepChunk_residBox, stepChunk_residPts]
      cases hres : cfg.include_residual
      · simp [filter_mask_residual_disabled, hinv]
      · simp only [Bool.true_and]
        by_cases h : (c.filter (mask_residual cfg.tree_classes hI true)).isEmpty
        · have hnil := List.isEmpty_iff.mp h
          simp [hnil, hinv]
        · have hfalse :
              (c.filter (mask_residual cfg.tree_classes hI true)).isEmpty = false := by
            revert h
            cases (c.filter (mask_residual cfg.tree_classes hI true)).isEmpty <;> simp
          have hne : c.filter (mask_residual cfg.tree_classes hI true) ≠ [] := by
            intro hx
            rw [hx] at hfalse
            simp at hfalse
          rw [hinv, hfalse]
          simp only [Bool.not_false, if_true]
          exact bbox_append _ _ hne
    simpa [processChunks] using ih (stepChunk cfg hI c st) hstep

/-- C5: the running bounding-box update is order-independent — for any non-empty
sequence of non-empty sub-chunks, folding the update from no box yields exactly the
elementwise min/max over the coordinates of all points of the partition — and the
final box recorded for each role equals the elementwise min/max over exactly the
points written to that role. -/
theorem C5_bbox_correct (chunks : List (List Point)) (hne : chunks ≠ [])
    (hall : ∀ c ∈ chunks, c ≠ []) (cfg : ImportConfig) (hasInst : Bool) :
    List.foldl _update_bbox none chunks = bboxOfPoints chunks.flatten
    ∧ (processChunks cfg true hasInst chunks initFileState).1.treeBox
        = bboxOfPoints (processChunks cfg true hasInst chunks initFileState).1.treePts
    ∧ (processChunks cfg true hasInst chunks initFileState).1.groundBox
        = bboxOfPoints (processChunks cfg true hasInst chunks initFileState).1.groundPts
    ∧ (processChunks cfg true hasInst chunks initFileState).1.residBox
        = bboxOfPoints (processChunks cfg true hasInst chunks initFileState).1.residPts := by
  refine ⟨?_, ?_, ?_, ?_⟩
  · have := foldl_update_bbox chunks hall []
    simpa [bboxOfPoints] using this
  · exact processChunks_treeBox cfg hasInst chunks initFileState rfl
  · exact processChunks_groundBox cfg hasInst chunks initFileState rfl
  · exact processChunks_residBox cfg hasInst chunks initFileState rfl

/-- Witness for C5 at a concrete two-chunk partition. -/
theorem C5_bbox_correct_witness :
    ([[pA], [pB, pC]] : List (List Point)) ≠ []
    ∧ (∀ c ∈ ([[pA], [pB, pC]] : List (List Point)), c ≠ [])
    ∧ (List.foldl _update_bbox none [[pA], [pB, pC]]
        = bboxOfPoints ([[pA], [pB, pC]] : List (List Point)).flatten
      ∧ (processChunks cfgEx true true [[pA], [pB, pC]] initFileState).1.treeBox
          = bboxOfPoints
              (processChunks cfgEx true true [[pA], [pB, pC]] initFileState).1.treePts
      ∧ (processChunks cfgEx true true [[pA], [pB, pC]] initFileState).1.groundBox
          = bboxOfPoints
              (processChunks cfgEx true true [[pA], [pB, pC]] initFileState).1.groundPts
      ∧ (processChunks cfgEx true true [[pA], [pB, pC]] initFileState).1.residBox
          = bboxOfPoints
              (processChunks cfgEx true true [[pA], [pB, pC]] initFileState).1.residPts) := by
  refine ⟨by decide, by decide, ?_⟩
  have h := C5_bbox_correct [[pA], [pB, pC]] (by decide) (by decide) cfgEx true
  exact ⟨h.1, h.2.1, h.2.2.1, h.2.2.2⟩

lemma processFile_eq_of_sem (cfg : ImportConfig) (campaign tile : String) (f : LasFile)
    (hsem : f.hasSemanticDim = true) :
    processFile cfg campaign tile f =
      ([(tilePath cfg campaign tile "_tree_pack.laz",
          (filePoints f).filter
            (mask_tree cfg.tree_classes f.hasInstanceDim cfg.include_residual)),
        (tilePath cfg campaign tile "_ground_only.laz",
          (filePoints f).filter (mask_ground cfg.ground_classes))]
       ++ (if cfg.include_residual then
             [(tilePath cfg campaign tile "_residual.laz",
               (filePoints f).filter
                 (mask_residual cfg.tree_classes f.hasInstanceDim cfg.include_residual))]
           else []),
       Except.ok
         ([treeRecord campaign tile f.epsg
             ((filePoints f).filter
               (mask_tree cfg.tree_classes f.hasInstanceDim cfg.include_residual)).length,
           groundRecord campaign tile f.epsg
             ((filePoints f).filter (mask_ground cfg.ground_classes)).length]
          ++ (if cfg.include_residual then
                [residualRecord campaign tile f.epsg
                  ((filePoints f).filter
                    (mask_residual cfg.tree_classes f.hasInstanceDim
                      cfg.include_residual)).length]
              else []))) := by
  simp only [processFile]
  rw [hsem]
  rw [processChunks_err cfg f.hasInstanceDim f.chunks initFileState]
  rw [processChunks_treePts, processChunks_groundPts, processChunks_residPts,
    processChunks_treeCount, processChunks_groundCount, processChunks_residCount]
  simp [initFileState, filePoints]

lemma processFile_eq_of_nil_chunks (cfg : ImportConfig) (campaign tile : String)
    (f : LasFile) (hchunks : f.chunks = []) :
    processFile cfg campaign tile f =
      ([(tilePath cfg campaign tile "_tree_pack.laz", []),
        (tilePath cfg campaign tile "_ground_only.laz", [])]
       ++ (if cfg.include_residual then
             [(tilePath cfg campaign tile "_residual.laz", [])] else []),
       Except.ok
         ([treeRecord campaign tile f.epsg 0, groundRecord campaign tile f.epsg 0]
          ++ (if cfg.include_residual then [residualRecord campaign tile f.epsg 0]
              else []))) := by
  simp only [processFile, hchunks]
  rfl

lemma processFile_error_of_no_sem (cfg : ImportConfig) (campaign tile : String)
    (f : LasFile) (hsem : f.hasSemanticDim = false) (hne : f.chunks ≠ []) :
    (processFile cfg campaign tile f).2 = Except.error ImportError.configuration := by
  match hc : f.chunks, hne with
  | c :: rest, _ =>
    simp only [processFile, hc, hsem, processChunks]
    rfl

lemma processFile_ok_char (cfg : ImportConfig) (campaign tile : String) (f : LasFile)
    (w : List (String × List Point)) (recs : List AssetRecord)
    (h : processFile cfg campaign tile f = (w, Except.ok recs)) :
    w = [(tilePath cfg campaign tile "_tree_pack.laz",
           (filePoints f).filter
             (mask_tree cfg.tree_classes f.hasInstanceDim cfg.include_residual)),
         (tilePath cfg campaign tile "_ground_only.laz",
           (filePoints f).filter (mask_ground cfg.ground_classes))]
        ++ (if cfg.include_residual then
              [(tilePath cfg campaign tile "_residual.laz",
                (filePoints f).filter
                  (mask_residual cfg.tree_classes f.hasInstanceDim
                    cfg.include_residual))]
            else [])
    ∧ recs = [treeRecord campaign tile f.epsg
                ((filePoints f).filter
                  (mask_tree cfg.tree_classes f.hasInstanceDim
                    cfg.include_residual)).length,
              groundRecord campaign tile f.epsg
                ((filePoints f).filter (mask_ground cfg.ground_classes)).length]
        ++ (if cfg.include_residual then
              [residualRecord campaign tile f.epsg
                ((filePoints f).filter
                  (mask_residual cfg.tree_classes f.hasInstanceDim
                    cfg.include_residual)).length]
            else []) := by
  cases hsem : f.hasSemanticDim
  · cases hchunks : f.chunks with
    | nil =>
      rw [processFile_eq_of_nil_chunks cfg campaign tile f hchunks] at h
      have hpts : filePoints f = [] := by simp [filePoints, hchunks]
      have hw := congrArg Prod.fst h
      have hr := congrArg Prod.snd h
      simp only at hw hr
      constructor
      · rw [← hw]
        simp [hpts]
      · have := Except.ok.inj hr
        rw [← this]
        simp [hpts]
    | cons c rest =>
      have herr := processFile_error_of_no_sem cfg campaign tile f hsem
        (by rw [hchunks]; simp)
      rw [h] at herr
      simp at herr
  · rw [processFile_eq_of_sem cfg campaign tile f hsem] at h
    have hw := congrArg Prod.fst h
    have hr := congrArg Prod.snd h
    simp only at hw hr
    exact ⟨hw.symm, (Except.ok.inj hr).symm⟩

/-- C10: for a successfully imported tile, the tree-role and ground-role destination
files are created and their asset records returned even when zero input points match
the role — the record then reports point_count 0 and references an output file with
no points — and the same holds for the residual role when residual extraction is
enabled. -/
theorem C10_empty_role_outputs (cfg : ImportConfig) (campaign tile : String)
    (f : LasFile) (w : List (String × List Point)) (recs : List AssetRecord)
    (h : processFile cfg campaign tile f = (w, Except.ok recs)) :
    ((filePoints f).filter
        (mask_tree cfg.tree_classes f.hasInstanceDim cfg.include_residual) = [] →
      (tilePath cfg campaign tile "_tree_pack.laz", ([] : List Point)) ∈ w
      ∧ treeRecord campaign tile f.epsg 0 ∈ recs)
    ∧ ((filePoints f).filter (mask_ground cfg.ground_classes) = [] →
      (tilePath cfg campaign tile "_ground_only.laz", ([] : List Point)) ∈ w
      ∧ groundRecord campaign tile f.epsg 0 ∈ recs)
    ∧ (cfg.include_residual = true →
        (filePoints f).filter
          (mask_residual cfg.tree_classes f.hasInstanceDim cfg.include_residual) = [] →
        (tilePath cfg campaign tile "_residual.laz", ([] : List Point)) ∈ w
        ∧ residualRecord campaign tile f.epsg 0 ∈ recs) := by
  obtain ⟨hw, hr⟩ := processFile_ok_char cfg campaign tile f w recs h
  refine ⟨?_, ?_, ?_⟩
  · intro hnil
    constructor
    · rw [hw]
      simp [hnil]
    · rw [hr]
      simp [hnil]
  · intro hnil
    constructor
    · rw [hw]
      simp [hnil]
    · rw [hr]
      simp [hnil]
  · intro hres hnil
    rw [hres] at hnil
    constructor
    · rw [hw]
      simp [hres, hnil]
    · rw [hr]
      simp [hres, hnil]

/-- Witness for C10: a file none of whose points matches any role still yields all
three destination files (empty) and records with point_count 0. -/
theorem C10_empty_role_outputs_witness :
    processFile cfgEx "c" "t" noMatchFile
      = ([("pointclouds/campaigns/c/tiles/t_tree_pack.laz", []),
          ("pointclouds/campaigns/c/tiles/t_ground_only.laz", []),
          ("pointclouds/campaigns/c/tiles/t_residual.laz", [])],
         Except.ok [treeRecord "c" "t" none 0, groundRecord "c" "t" none 0,
                    residualRecord "c" "t" none 0])
    ∧ (((filePoints noMatchFile).filter
          (mask_tree cfgEx.tree_classes noMatchFile.hasInstanceDim
            cfgEx.include_residual) = [] →
        (tilePath cfgEx "c" "t" "_tree_pack.laz", ([] : List Point))
            ∈ [("pointclouds/campaigns/c/tiles/t_tree_pack.laz", ([] : List Point)),
               ("pointclouds/campaigns/c/tiles/t_ground_only.laz", []),
               ("pointclouds/campaigns/c/tiles/t_residual.laz", [])]
        ∧ treeRecord "c" "t" noMatchFile.epsg 0
            ∈ [treeRecord "c" "t" none 0, groundRecord "c" "t" none 0,
               residualRecord "c" "t" none 0])
      ∧ ((filePoints noMatchFile).filter (mask_ground cfgEx.ground_classes) = [] →
        (tilePath cfgEx "c" "t" "_ground_only.laz", ([] : List Point))
            ∈ [("pointclouds/campaigns/c/tiles/t_tree_pack.laz", ([] : List Point)),
               ("pointclouds/campaigns/c/tiles/t_ground_only.laz", []),
               ("pointclouds/campaigns/c/tiles/t_residual.laz", [])]
        ∧ groundRecord "c" "t" noMatchFile.epsg 0
            ∈ [treeRecord "c" "t" none 0, groundRecord "c" "t" none 0,
               residualRecord "c" "t" none 0])
      ∧ (cfgEx.include_residual = true →
          (filePoints noMatchFile).filter
            (mask_residual cfgEx.tree_classes noMatchFile.hasInstanceDim
              cfgEx.include_residual) = [] →
          (tilePath cfgEx "c" "t" "_residual.laz", ([] : List Point))
              ∈ [("pointclouds/campaigns/c/tiles/t_tree_pack.laz", ([] : List Point)),
                 ("pointclouds/campaigns/c/tiles/t_ground_only.laz", []),
                 ("pointclouds/campaigns/c/tiles/t_residual.laz", [])]
          ∧ residualRecord "c" "t" noMatchFile.epsg 0
              ∈ [treeRecord "c" "t" none 0, groundRecord "c" "t" none 0,
                 residualRecord "c" "t" none 0])) := by
  have hp : processFile cfgEx "c" "t" noMatchFile
      = ([("pointclouds/campaigns/c/tiles/t_tree_pack.laz", []),
          ("pointclouds/campaigns/c/tiles/t_ground_only.laz", []),
          ("pointclouds/campaigns/c/tiles/t_residual.laz", [])],
         Except.ok [treeRecord "c" "t" none 0, groundRecord "c" "t" none 0,
                    residualRecord "c" "t" none 0]) := by rfl
  exact ⟨hp, C10_empty_role_outputs cfgEx "c" "t" noMatchFile _ _ hp⟩

lemma string_shift_underscore (a : String) (s : String) :
    a ++ ("_" ++ s) = a ++ "_" ++ s := by
  rw [String.append_assoc]

/-- C9 counterexample: a concrete import with residual extraction enabled produces a
residual asset record whose identity suffix is "residual" while its recorded role is
"background_residual"; thus its identity is not pc_{campaign}_{tile}_{recorded role}
as the claim states. -/
theorem C9_counterexample :
    import_campaign_tree_packs fsEx cfgEx "c" ["good.laz"]
      = ([("pointclouds/campaigns/c/tiles/tile_0000_tree_pack.laz", [pA]),
          ("pointclouds/campaigns/c/tiles/tile_0000_ground_only.laz", [pB]),
          ("pointclouds/campaigns/c/tiles/tile_0000_residual.laz", [pC])],
         Except.ok [treeRecord "c" "tile_0000" (some 25832) 1,
                    groundRecord "c" "tile_0000" (some 25832) 1,
                    residualRecord "c" "tile_0000" (some 25832) 1])
    ∧ (residualRecord "c" "tile_0000" (some 25832) 1).pc_role = "background_residual"
    ∧ (residualRecord "c" "tile_0000" (some 25832) 1).asset_uid
        = "pc_c_tile_0000_residual"
    ∧ (residualRecord "c" "tile_0000" (some 25832) 1).asset_uid
        ≠ "pc_" ++ "c" ++ "_" ++ "tile_0000" ++ "_"
          ++ (residualRecord "c" "tile_0000" (some 25832) 1).pc_role := by
  refine ⟨?_, rfl, by decide, by decide⟩
  rfl

lemma append_split_last (a s t u : String) (h : s ++ t = u) : a ++ u = a ++ s ++ t := by
  rw [String.append_assoc, h]

lemma processFile_uid_naming (cfg : ImportConfig) (campaign tile : String) (f : LasFile)
    (w : List (String × List Point)) (recs : List AssetRecord)
    (h : processFile cfg campaign tile f = (w, Except.ok recs)) :
    ∀ r ∈ recs, r.asset_uid
      = "pc_" ++ campaign ++ "_" ++ tile ++ "_" ++ fileRoleSuffix r.pc_role := by
  obtain ⟨_, hr⟩ := processFile_ok_char cfg campaign tile f w recs h
  have e1 : ("_" ++ "tree_pack" : String) = "_tree_pack" := by decide
  have e2 : ("_" ++ "ground_only" : String) = "_ground_only" := by decide
  have e3 : ("_" ++ "residual" : String) = "_residual" := by decide
  intro r hmem
  rw [hr] at hmem
  rcases List.mem_append.mp hmem with hmain | hresid
  · simp only [List.mem_cons, List.not_mem_nil, or_false] at hmain
    rcases hmain with h1 | h1
    · subst h1
      simp only [treeRecord, fileRoleSuffix]
      rw [if_neg (by decide)]
      exact append_split_last _ "_" "tree_pack" _ e1
    · subst h1
      simp only [groundRecord, fileRoleSuffix]
      rw [if_neg (by decide)]
      exact append_split_last _ "_" "ground_only" _ e2
  · rcases hxx : cfg.include_residual
    · rw [hxx] at hresid
      simp at hresid
    · rw [hxx] at hresid
      simp only [if_true, List.mem_singleton] at hresid
      subst hresid
      simp only [residualRecord, fileRoleSuffix]
      rw [if_pos (by decide)]
      exact append_split_last _ "_" "residual" _ e3

lemma merge_ok_uid (dir : Option (List DirEntry)) (campaign : String)
    (incG incR : Bool) (root : String) (oname : Option String)
    (w : List (String × List Point)) (res : MergeResult)
    (h : merge_campaign_tree_packs dir campaign incG incR root oname
          = (w, Except.ok res)) :
    res.record.asset_uid = "pc_" ++ campaign ++ "_merged"
      ++ (if incG then "_ground" else "") ++ (if incR then "_residual" else "") := by
  match dir with
  | none => simp [merge_campaign_tree_packs] at h
  | some entries =>
    simp only [merge_campaign_tree_packs] at h
    rcases hb : (bucketFiles incG incR (sortByName entries)).1 with _ | ⟨first, rest⟩
    · rw [hb] at h
      simp at h
    · rw [hb] at h
      simp only [mergeBody] at h
      have hsnd := congrArg Prod.snd h
      simp only at hsnd
      have hres := Except.ok.inj hsnd
      rw [← hres]

/-- C9 amended: every tile-scoped asset record has identity
pc_<campaign>_<tile>_<suffix> where the suffix is the role file suffix — equal to
the recorded role for tree_pack and ground_only, but "residual" for the record
whose recorded role is "background_residual" — and every campaign-scoped merge
record has identity pc_<campaign>_merged with "_ground" appended when ground is
included and then "_residual" appended when residual is included. -/
theorem C9_amended_identity_naming :
    (∀ (cfg : ImportConfig) (campaign tile : String) (f : LasFile)
        (w : List (String × List Point)) (recs : List AssetRecord),
      processFile cfg campaign tile f = (w, Except.ok recs) →
      ∀ r ∈ recs, r.asset_uid
        = "pc_" ++ campaign ++ "_" ++ tile ++ "_" ++ fileRoleSuffix r.pc_role)
    ∧ (∀ (dir : Option (List DirEntry)) (campaign : String) (incG incR : Bool)
        (root : String) (oname : Option String) (w : List (String × List Point))
        (res : MergeResult),
      merge_campaign_tree_packs dir campaign incG incR root oname
          = (w, Except.ok res) →
      res.record.asset_uid = "pc_" ++ campaign ++ "_merged"
        ++ (if incG then "_ground" else "") ++ (if incR then "_residual" else "")) :=
  ⟨processFile_uid_naming, merge_ok_uid⟩

/-- Witness for C9 at a concrete import and a concrete merge. -/
theorem C9_amended_identity_naming_witness :
    (processFile cfgEx "c" "t" noMatchFile
        = ([("pointclouds/campaigns/c/tiles/t_tree_pack.laz", []),
            ("pointclouds/campaigns/c/tiles/t_ground_only.laz", []),
            ("pointclouds/campaigns/c/tiles/t_residual.laz", [])],
           Except.ok [treeRecord "c" "t" none 0, groundRecord "c" "t" none 0,
                      residualRecord "c" "t" none 0])
      ∧ ∀ r ∈ [treeRecord "c" "t" none 0, groundRecord "c" "t" none 0,
               residualRecord "c" "t" none 0],
          r.asset_uid = "pc_" ++ "c" ++ "_" ++ "t" ++ "_" ++ fileRoleSuffix r.pc_role)
    ∧ (∃ w res, merge_campaign_tree_packs (some entriesEx) "c" true false
          "pointclouds/campaigns" none = (w, Except.ok res)
        ∧ res.record.asset_uid = "pc_" ++ "c" ++ "_merged"
            ++ (if true then "_ground" else "") ++ (if false then "_residual" else "")) := by
  have hp : processFile cfgEx "c" "t" noMatchFile
      = ([("pointclouds/campaigns/c/tiles/t_tree_pack.laz", []),
          ("pointclouds/campaigns/c/tiles/t_ground_only.laz", []),
          ("pointclouds/campaigns/c/tiles/t_residual.laz", [])],
         Except.ok [treeRecord "c" "t" none 0, groundRecord "c" "t" none 0,
                    residualRecord "c" "t" none 0]) := by rfl
  have hm : ∃ w res, merge_campaign_tree_packs (some entriesEx) "c" true false
      "pointclouds/campaigns" none = (w, Except.ok res) :=
    ⟨_, _, rfl⟩
  obtain ⟨w0, res0, hm0⟩ := hm
  exact ⟨⟨hp, C9_amended_identity_naming.1 cfgEx "c" "t" noMatchFile _ _ hp⟩,
         ⟨w0, res0, hm0,
          C9_amended_identity_naming.2 (some entriesEx) "c" true false
            "pointclouds/campaigns" none w0 res0 hm0⟩⟩

lemma processFile_ok_of_processable (cfg : ImportConfig) (campaign tile : String)
    (f : LasFile) (hok : f.hasSemanticDim = true ∨ f.chunks = []) :
    ∃ fw frecs, processFile cfg campaign tile f = (fw, Except.ok frecs) := by
  rcases hok with hsem | hchunks
  · exact ⟨_, _, processFile_eq_of_sem cfg campaign tile f hsem⟩
  · exact ⟨_, _, processFile_eq_of_nil_chunks cfg campaign tile f hchunks⟩

lemma importLoop_missing (fs : List (String × LasFile)) (cfg : ImportConfig)
    (campaign : String) (p : String) (post : List String)
    (hp : lookupFile fs p = none) :
    ∀ (pre : List String),
      (∀ q ∈ pre, ∃ f, lookupFile fs q = some f
        ∧ (f.hasSemanticDim = true ∨ f.chunks = [])) →
      ∀ (i : Nat) (w : List (String × List Point)) (recs : List AssetRecord),
        (importLoop fs cfg campaign i (pre ++ p :: post) w recs).2
            = Except.error ImportError.notFound
        ∧ (importLoop fs cfg campaign i (pre ++ p :: post) w recs).1
            = (importLoop fs cfg campaign i pre w recs).1 := by
  intro pre
  induction pre with
  | nil =>
    intro _ i w recs
    constructor
    · simp [importLoop, hp]
    · simp [importLoop, hp]
  | cons q pre' ih =>
    intro hpre i w recs
    obtain ⟨f, hq, hok⟩ := hpre q (by simp)
    obtain ⟨fw, frecs, heq⟩ :=
      processFile_ok_of_processable cfg campaign (_derive_tile_id q i) f hok
    have hpre' : ∀ x ∈ pre', ∃ g, lookupFile fs x = some g
        ∧ (g.hasSemanticDim = true ∨ g.chunks = []) :=
      fun x hx => hpre x (by simp [hx])
    simp only [List.cons_append, importLoop, hq, heq]
    exact ih hpre' (i + 1) (w ++ fw) (recs ++ frecs)

/-- C7 counterexample: an import call whose input list contains a missing path after
an existing one raises NotFound, yet destination files for the earlier path have
already been created — so "nothing is written" fails for this call. -/
theorem C7_counterexample :
    (import_campaign_tree_packs fsEx cfgEx "c" ["good.laz", "missing.laz"]).2
        = Except.error ImportError.notFound
    ∧ (import_campaign_tree_packs fsEx cfgEx "c" ["good.laz", "missing.laz"]).1
        = [("pointclouds/campaigns/c/tiles/tile_0000_tree_pack.laz", [pA]),
           ("pointclouds/campaigns/c/tiles/tile_0000_ground_only.laz", [pB]),
           ("pointclouds/campaigns/c/tiles/tile_0000_residual.laz", [pC])]
    ∧ (import_campaign_tree_packs fsEx cfgEx "c" ["good.laz", "missing.laz"]).1 ≠ [] :=
  ⟨rfl, rfl, by decide⟩

/-- C7 amended: when the input list is earlier-existing paths, then a missing path,
then anything, the import raises NotFound, and the files created are exactly those
of the earlier paths — in particular nothing is written when the missing path comes
first, but files for paths before it have already been created when it does not. -/
theorem C7_amended_missing_path (fs : List (String × LasFile)) (cfg : ImportConfig)
    (campaign : String) (pre post : List String) (p : String)
    (hpre : ∀ q ∈ pre, ∃ f, lookupFile fs q = some f
      ∧ (f.hasSemanticDim = true ∨ f.chunks = []))
    (hp : lookupFile fs p = none) :
    (import_campaign_tree_packs fs cfg campaign (pre ++ p :: post)).2
        = Except.error ImportError.notFound
    ∧ (import_campaign_tree_packs fs cfg campaign (pre ++ p :: post)).1
        = (import_campaign_tree_packs fs cfg campaign pre).1 := by
  exact importLoop_missing fs cfg campaign p post hp pre hpre 0 [] []

/-- Witness for C7 at a concrete filesystem: one existing path before the missing
one. -/
theorem C7_amended_missing_path_witness :
    (∀ q ∈ ["good.laz"], ∃ f, lookupFile fsEx q = some f
      ∧ (f.hasSemanticDim = true ∨ f.chunks = []))
    ∧ lookupFile fsEx "missing.laz" = none
    ∧ ((import_campaign_tree_packs fsEx cfgEx "c"
          (["good.laz"] ++ "missing.laz" :: [])).2
            = Except.error ImportError.notFound
      ∧ (import_campaign_tree_packs fsEx cfgEx "c"
          (["good.laz"] ++ "missing.laz" :: [])).1
            = (import_campaign_tree_packs fsEx cfgEx "c" ["good.laz"]).1) := by
  refine ⟨?_, rfl, ?_⟩
  · intro q hq
    simp only [List.mem_singleton] at hq
    subst hq
    exact ⟨goodFile, rfl, Or.inl rfl⟩
  · exact C7_amended_missing_path fsEx cfgEx "c" ["good.laz"] [] "missing.laz"
      (by
        intro q hq
        simp only [List.mem_singleton] at hq
        subst hq
        exact ⟨goodFile, rfl, Or.inl rfl⟩)
      rfl

/-- C8 counterexample: a file whose schema lacks the semantic dimension but which
contains no points (so the chunk loop body never runs) is imported without any
error — the claim's "for every such file the import raises a Configuration error"
fails on the code, which only evaluates the semantic dimension per chunk. -/
theorem C8_counterexample :
    emptyNoSemFile.hasSemanticDim = false
    ∧ import_campaign_tree_packs fsEx cfgEx "c" ["empty.laz"]
        = ([("pointclouds/campaigns/c/tiles/tile_0000_tree_pack.laz", []),
            ("pointclouds/campaigns/c/tiles/tile_0000_ground_only.laz", []),
            ("pointclouds/campaigns/c/tiles/tile_0000_residual.laz", [])],
           Except.ok [treeRecord "c" "tile_0000" none 0,
                      groundRecord "c" "tile_0000" none 0,
                      residualRecord "c" "tile_0000" none 0])
    ∧ (Except.ok [treeRecord "c" "tile_0000" none 0,
                  groundRecord "c" "tile_0000" none 0,
                  residualRecord "c" "tile_0000" none 0]
        : Except ImportError (List AssetRecord))
        ≠ Except.error ImportError.configuration := by
  refine ⟨rfl, rfl, ?_⟩
  intro h
  exact Except.noConfusion h

/-- C8 amended: a tile-import call on a file whose point schema lacks the
configured semantic-class attribute and which contains at least one point (so at
least one chunk is read) raises a Configuration error that aborts the whole file. -/
theorem C8_amended_missing_semantic (fs : List (String × LasFile)) (cfg : ImportConfig)
    (campaign : String) (p : String) (f : LasFile)
    (hf : lookupFile fs p = some f) (hsem : f.hasSemanticDim = false)
    (hne : f.chunks ≠ []) :
    (import_campaign_tree_packs fs cfg campaign [p]).2
      = Except.error ImportError.configuration := by
  have herr := processFile_error_of_no_sem cfg campaign (_derive_tile_id p 0) f hsem hne
  simp only [import_campaign_tree_packs, importLoop, hf]
  rcases hpf : processFile cfg campaign (_derive_tile_id p 0) f with ⟨fw, r⟩
  rw [hpf] at herr
  simp only at herr
  subst herr
  simp

/-- Witness for C8 at a concrete one-point file lacking the semantic dimension. -/
theorem C8_amended_missing_semantic_witness :
    lookupFile fsEx "nosem.laz" = some noSemFile
    ∧ noSemFile.hasSemanticDim = false
    ∧ noSemFile.chunks ≠ []
    ∧ (import_campaign_tree_packs fsEx cfgEx "c" ["nosem.laz"]).2
        = Except.error ImportError.configuration :=
  ⟨rfl, rfl, by decide,
   C8_amended_missing_semantic fsEx cfgEx "c" "nosem.laz" noSemFile rfl rfl (by decide)⟩

lemma endsWith_both {s a b : String} (hlen : a.data.length ≤ b.data.length)
    (ha : strEndsWith s a = true) (hb : strEndsWith s b = true) :
    a.data = b.data.drop (b.data.length - a.data.length) := by
  simp only [strEndsWith, decide_eq_true_eq] at ha hb
  have hsb : b.data.length ≤ s.data.length := by
    by_contra hlt
    push_neg at hlt
    have h0 : s.data.length - b.data.length = 0 := by omega
    rw [h0, List.drop_zero] at hb
    have hlb := congrArg List.length hb
    omega
  have harith : s.data.length - a.data.length
      = (s.data.length - b.data.length) + (b.data.length - a.data.length) := by omega
  rw [harith, ← List.drop_drop, hb] at ha
  exact ha.symm

lemma endsWith_excl_of (a b : String) (hlen : a.data.length ≤ b.data.length)
    (hne : a.data ≠ b.data.drop (b.data.length - a.data.length)) (s : String) :
    ¬(strEndsWith s a = true ∧ strEndsWith s b = true) :=
  fun hab => hne (endsWith_both hlen hab.1 hab.2)

lemma not_tree_and_ground (s : String) :
    ¬(strEndsWith s "_tree_pack.laz" = true ∧ strEndsWith s "_ground_only.laz" = true) :=
  endsWith_excl_of "_tree_pack.laz" "_ground_only.laz" (by decide) (by decide) s

lemma not_resid_and_tree (s : String) :
    ¬(strEndsWith s "_residual.laz" = true ∧ strEndsWith s "_tree_pack.laz" = true) :=
  endsWith_excl_of "_residual.laz" "_tree_pack.laz" (by decide) (by decide) s

lemma not_resid_and_ground (s : String) :
    ¬(strEndsWith s "_residual.laz" = true ∧ strEndsWith s "_ground_only.laz" = true) :=
  endsWith_excl_of "_residual.laz" "_ground_only.laz" (by decide) (by decide) s

lemma ground_not_tree {s : String} (h : strEndsWith s "_ground_only.laz" = true) :
    strEndsWith s "_tree_pack.laz" = false := by
  cases ht : strEndsWith s "_tree_pack.laz"
  · rfl
  · exact absurd ⟨ht, h⟩ (not_tree_and_ground s)

lemma tree_not_ground {s : String} (h : strEndsWith s "_tree_pack.laz" = true) :
    strEndsWith s "_ground_only.laz" = false := by
  cases hg : strEndsWith s "_ground_only.laz"
  · rfl
  · exact absurd ⟨h, hg⟩ (not_tree_and_ground s)

lemma tree_not_resid {s : String} (h : strEndsWith s "_tree_pack.laz" = true) :
    strEndsWith s "_residual.laz" = false := by
  cases hr : strEndsWith s "_residual.laz"
  · rfl
  · exact absurd ⟨hr, h⟩ (not_resid_and_tree s)

lemma resid_not_tree {s : String} (h : strEndsWith s "_residual.laz" = true) :
    strEndsWith s "_tree_pack.laz" = false := by
  cases ht : strEndsWith s "_tree_pack.laz"
  · rfl
  · exact absurd ⟨h, ht⟩ (not_resid_and_tree s)

lemma ground_not_resid {s : String} (h : strEndsWith s "_ground_only.laz" = true) :
    strEndsWith s "_residual.laz" = false := by
  cases hr : strEndsWith s "_residual.laz"
  · rfl
  · exact absurd ⟨hr, h⟩ (not_resid_and_ground s)

lemma resid_not_ground {s : String} (h : strEndsWith s "_residual.laz" = true) :
    strEndsWith s "_ground_only.laz" = false := by
  cases hg : strEndsWith s "_ground_only.laz"
  · rfl
  · exact absurd ⟨h, hg⟩ (not_resid_and_ground s)

lemma mem_insertSorted (e x : DirEntry) :
    ∀ l : List DirEntry, x ∈ insertSorted e l ↔ x = e ∨ x ∈ l := by
  intro l
  induction l with
  | nil => simp [insertSorted]
  | cons y ys ih =>
    cases hf : strLe e.1 y.1
    · show x ∈ (if strLe e.1 y.1 then e :: y :: ys else y :: insertSorted e ys) ↔ _
      rw [hf]
      show x ∈ y :: insertSorted e ys ↔ _
      rw [List.mem_cons, ih, List.mem_cons]
      tauto
    · show x ∈ (if strLe e.1 y.1 then e :: y :: ys else y :: insertSorted e ys) ↔ _
      rw [hf]
      show x ∈ e :: y :: ys ↔ _
      rw [List.mem_cons, List.mem_cons]

lemma mem_sortByName (x : DirEntry) :
    ∀ l : List DirEntry, x ∈ sortByName l ↔ x ∈ l := by
  intro l
  induction l with
  | nil => simp [sortByName]
  | cons y ys ih =>
    simp only [sortByName, List.foldr_cons] at ih ⊢
    rw [mem_insertSorted, ih, List.mem_cons]

lemma bucketFiles_cons (incG incR : Bool) (e : DirEntry) (rest : List DirEntry) :
    bucketFiles incG incR (e :: rest)
      = (if strEndsWith e.1 "_tree_pack.laz" then
           (e :: (bucketFiles incG incR rest).1, (bucketFiles incG incR rest).2.1,
            (bucketFiles incG incR rest).2.2)
         else if incG && strEndsWith e.1 "_ground_only.laz" then
           ((bucketFiles incG incR rest).1, e :: (bucketFiles incG incR rest).2.1,
            (bucketFiles incG incR rest).2.2)
         else if incR && strEndsWith e.1 "_residual.laz" then
           ((bucketFiles incG incR rest).1, (bucketFiles incG incR rest).2.1,
            e :: (bucketFiles incG incR rest).2.2)
         else bucketFiles incG incR rest) := by
  rcases hb : bucketFiles incG incR rest with ⟨t, g, r⟩
  simp only [bucketFiles, hb]

lemma bucketFiles_eq (incG incR : Bool) :
    ∀ l : List DirEntry,
      bucketFiles incG incR l
        = (l.filter (fun e => strEndsWith e.1 "_tree_pack.laz"),
           (if incG then l.filter (fun e => strEndsWith e.1 "_ground_only.laz") else []),
           (if incR then l.filter (fun e => strEndsWith e.1 "_residual.laz") else [])) := by
  intro l
  induction l with
  | nil => cases incG <;> cases incR <;> simp [bucketFiles]
  | cons e rest ih =>
    rw [bucketFiles_cons, ih]
    cases ht : strEndsWith e.1 "_tree_pack.laz"
    · cases hg : strEndsWith e.1 "_ground_only.laz"
      · cases hr : strEndsWith e.1 "_residual.laz"
        · cases incG <;> cases incR <;> simp [List.filter_cons, ht, hg, hr]
        · cases incG <;> cases incR <;> simp [List.filter_cons, ht, hg, hr]
      · have hr := ground_not_resid hg
        cases incG <;> cases incR <;> simp [List.filter_cons, ht, hg, hr]
    · have hg := tree_not_ground ht
      have hr := tree_not_resid ht
      cases incG <;> cases incR <;> simp [List.filter_cons, ht, hg, hr]

lemma foldl_mergeAppendChunk_points :
    ∀ (chunks : List (List Point)) (st : List Point × Nat × Option Bbox),
      (List.foldl mergeAppendChunk st chunks).1 = st.1 ++ chunks.flatten := by
  intro chunks
  induction chunks with
  | nil => intro st; simp
  | cons c rest ih =>
    intro st
    simp only [List.foldl_cons, List.flatten_cons, ih, mergeAppendChunk,
      List.append_assoc]

lemma mergeAppendFiles_points :
    ∀ (files : List LasFile) (st : List Point × Nat × Option Bbox),
      (mergeAppendFiles files st).1 = st.1 ++ (files.map filePoints).flatten := by
  intro files
  induction files with
  | nil => intro st; simp [mergeAppendFiles]
  | cons f rest ih =>
    intro st
    simp only [mergeAppendFiles, List.foldl_cons, List.map_cons, List.flatten_cons]
    have hstep : (mergeAppendFile st f).1 = st.1 ++ filePoints f := by
      simp [mergeAppendFile, foldl_mergeAppendChunk_points, filePoints]
    calc (List.foldl mergeAppendFile (mergeAppendFile st f) rest).1
        = (mergeAppendFile st f).1 ++ (rest.map filePoints).flatten := ih _
      _ = st.1 ++ (filePoints f ++ (rest.map filePoints).flatten) := by
          rw [hstep, List.append_assoc]

lemma mergeBody_points (campaign : String) (incG incR : Bool) (root : String)
    (oname : Option String) (tree_files ground_files residual_files : List DirEntry)
    (crs : Option Int) :
    ∃ res : MergeResult,
      (mergeBody campaign incG incR root oname tree_files ground_files residual_files
        crs).2 = Except.ok res
      ∧ res.points
          = ((tree_files.map Prod.snd).map filePoints).flatten
            ++ (if incG then ((ground_files.map Prod.snd).map filePoints).flatten
                else [])
            ++ (if incR then ((residual_files.map Prod.snd).map filePoints).flatten
                else []) := by
  refine ⟨_, rfl, ?_⟩
  show (if incR then
          mergeAppendFiles (residual_files.map Prod.snd)
            (if incG then
              mergeAppendFiles (ground_files.map Prod.snd)
                (mergeAppendFiles (tree_files.map Prod.snd) ([], 0, none))
             else mergeAppendFiles (tree_files.map Prod.snd) ([], 0, none))
        else
          (if incG then
            mergeAppendFiles (ground_files.map Prod.snd)
              (mergeAppendFiles (tree_files.map Prod.snd) ([], 0, none))
           else mergeAppendFiles (tree_files.map Prod.snd) ([], 0, none))).1 = _
  cases incG <;> cases incR <;>
    simp [mergeAppendFiles_points, List.append_assoc]

lemma merge_eq_mergeBody (entries : List DirEntry) (campaign : String)
    (incG incR : Bool) (root : String) (oname : Option String)
    (first : DirEntry) (rest : List DirEntry)
    (hb1 : (bucketFiles incG incR (sortByName entries)).1 = first :: rest) :
    merge_campaign_tree_packs (some entries) campaign incG incR root oname
      = mergeBody campaign incG incR root oname (first :: rest)
          (bucketFiles incG incR (sortByName entries)).2.1
          (bucketFiles incG incR (sortByName entries)).2.2 first.2.epsg := by
  simp only [merge_campaign_tree_packs]
  rw [hb1]

/-- C4: for every campaign tile directory containing at least one tree-role file,
the merged output's point sequence is the concatenation of the tree-role files'
points in lexicographic filename order, then the ground-role files (when
include_ground) in lexicographic order, then the residual-role files (when
include_residual) in lexicographic order; roles whose flag is unset contribute
nothing. -/
theorem C4_merge_ordering (entries : List DirEntry) (campaign : String)
    (incG incR : Bool) (root : String) (oname : Option String)
    (hex : ∃ e ∈ entries, strEndsWith e.1 "_tree_pack.laz" = true) :
    ∃ res : MergeResult,
      (merge_campaign_tree_packs (some entries) campaign incG incR root oname).2
        = Except.ok res
      ∧ res.points = mergedPointsSpec entries incG incR := by
  obtain ⟨e, he, hsuf⟩ := hex
  have hmem : e ∈ sortByName entries := (mem_sortByName e entries).mpr he
  have hfil : e ∈ (sortByName entries).filter
      (fun x => strEndsWith x.1 "_tree_pack.laz") :=
    List.mem_filter.mpr ⟨hmem, hsuf⟩
  have hneq : (sortByName entries).filter
      (fun x => strEndsWith x.1 "_tree_pack.laz") ≠ [] := by
    intro h0
    rw [h0] at hfil
    exact absurd hfil (List.not_mem_nil e)
  obtain ⟨first, rest, hcons⟩ := List.exists_cons_of_ne_nil hneq
  have hb1 : (bucketFiles incG incR (sortByName entries)).1 = first :: rest := by
    rw [bucketFiles_eq]
    exact hcons
  have hg1 : (bucketFiles incG incR (sortByName entries)).2.1
      = if incG then (sortByName entries).filter
          (fun x => strEndsWith x.1 "_ground_only.laz") else [] := by
    rw [bucketFiles_eq]
  have hr1 : (bucketFiles incG incR (sortByName entries)).2.2
      = if incR then (sortByName entries).filter
          (fun x => strEndsWith x.1 "_residual.laz") else [] := by
    rw [bucketFiles_eq]
  rw [merge_eq_mergeBody entries campaign incG incR root oname first rest hb1]
  obtain ⟨res, hok, hpts⟩ := mergeBody_points campaign incG incR root oname
    (first :: rest) (bucketFiles incG incR (sortByName entries)).2.1
    (bucketFiles incG incR (sortByName entries)).2.2 first.2.epsg
  refine ⟨res, hok, ?_⟩
  rw [hpts, hg1, hr1, ← hcons]
  simp only [mergedPointsSpec]
  cases incG <;> cases incR <;> simp [List.map_map, Function.comp_def]

/-- Witness for C4 at a concrete three-entry tile directory given out of
lexicographic order. -/
theorem C4_merge_ordering_witness :
    (∃ e ∈ entriesEx, strEndsWith e.1 "_tree_pack.laz" = true)
    ∧ (∃ res : MergeResult,
        (merge_campaign_tree_packs (some entriesEx) "c" true false
          "pointclouds/campaigns" none).2 = Except.ok res
        ∧ res.points = mergedPointsSpec entriesEx true false) :=
  ⟨⟨("a_tree_pack.laz",
     { hasSemanticDim := true, hasInstanceDim := true, epsg := some 25832,
       chunks := [[pA]] }), by decide, by decide⟩,
   C4_merge_ordering entriesEx "c" true false "pointclouds/campaigns" none
     ⟨("a_tree_pack.laz",
       { hasSemanticDim := true, hasInstanceDim := true, epsg := some 25832,
         chunks := [[pA]] }), by decide, by decide⟩⟩

lemma merge_no_tree (entries : List DirEntry) (campaign : String) (incG incR : Bool)
    (root : String) (oname : Option String)
    (hfil : (sortByName entries).filter
        (fun x => strEndsWith x.1 "_tree_pack.laz") = []) :
    merge_campaign_tree_packs (some entries) campaign incG incR root oname
      = ([], Except.error MergeError.configuration) := by
  have hb1 : (bucketFiles incG incR (sortByName entries)).1 = [] := by
    rw [bucketFiles_eq]
    exact hfil
  simp only [merge_campaign_tree_packs]
  rw [hb1]

/-- C6: a merge whose tile directory does not exist raises NotFound, and a merge
whose tile directory exists but contains no tree-role file (in particular an empty
directory) raises a Configuration error; in both cases no output file is created
(the writes component is empty). -/
theorem C6_merge_failures :
    (∀ (campaign : String) (incG incR : Bool) (root : String)
        (oname : Option String),
      merge_campaign_tree_packs none campaign incG incR root oname
        = ([], Except.error MergeError.notFound))
    ∧ (∀ (entries : List DirEntry) (campaign : String) (incG incR : Bool)
        (root : String) (oname : Option String),
      (∀ e ∈ entries, strEndsWith e.1 "_tree_pack.laz" = false) →
      merge_campaign_tree_packs (some entries) campaign incG incR root oname
        = ([], Except.error MergeError.configuration)) := by
  constructor
  · intro campaign incG incR root oname
    rfl
  · intro entries campaign incG incR root oname hnone
    apply merge_no_tree
    rw [List.filter_eq_nil_iff]
    intro x hx
    have hfx := hnone x ((mem_sortByName x entries).mp hx)
    simp [hfx]

/-- Witness for C6: the missing-directory case, and an empty tile directory. -/
theorem C6_merge_failures_witness :
    merge_campaign_tree_packs none "c" false false "pointclouds/campaigns" none
      = ([], Except.error MergeError.notFound)
    ∧ (∀ e ∈ ([] : List DirEntry), strEndsWith e.1 "_tree_pack.laz" = false)
    ∧ merge_campaign_tree_packs (some []) "c" false false "pointclouds/campaigns" none
      = ([], Except.error MergeError.configuration) :=
  ⟨C6_merge_failures.1 "c" false false "pointclouds/campaigns" none,
   (by intro e he; cases he),
   C6_merge_failures.2 [] "c" false false "pointclouds/campaigns" none
     (by intro e he; cases he)⟩
